import Mathlib

/-!
Verification of the MemoryBot LLM-orchestration core (index.js and the Convex
store functions) against its natural-language specification.

The JavaScript source is shallowly embedded: timestamps and durations are
rationals (milliseconds, as produced by `Date.now()` and the float arithmetic
on retry-after hints), JS `Map`s become association lists that preserve JS
insertion-order semantics, and stateful methods become explicit state-passing
functions.  The LLM provider and the model's tool-call choices are external
inputs and are modeled as oracles (`AttemptOutcome` streams); everything the
program itself computes is transcribed from the source.
-/

attribute [local semireducible] Rat.add Rat.sub Rat.mul

/-! ## JS string helpers

Transcriptions of the small string utilities the source relies on.  They are
written over `List Char` so that they reduce inside the kernel. -/

/-- One step of JS `String.prototype.includes`: does `sub` occur as a
contiguous block in `hay`?  `matchAt` checks an occurrence at the head. -/
def matchAt : List Char → List Char → Bool
  | [], _ => true
  | _ :: _, [] => false
  | s :: srest, h :: hrest => s == h && matchAt srest hrest

/-- JS `hay.includes(sub)` (for the non-empty needles used by the source). -/
def strIncludes (hay sub : String) : Bool :=
  go hay.data sub.data
where
  go : List Char → List Char → Bool
    | h, sub => matchAt sub h ||
        match h with
        | [] => false
        | _ :: rest => go rest sub

/-- JS `String.prototype.trim` (whitespace stripped from both ends). -/
def jsTrim (s : String) : String :=
  ⟨((s.data.dropWhile Char.isWhitespace).reverse.dropWhile Char.isWhitespace).reverse⟩

/-- JS `Array.prototype.join("\n")` (i.e. `String.intercalate` with a newline),
transcribed so its non-emptiness can be reasoned about directly. -/
def joinNl : List String → String
  | [] => ""
  | [a] => a
  | a :: b :: rest => a ++ "\x0a" ++ joinNl (b :: rest)

/-! ## Configuration constants (the `CONFIG` object, with the default
environment: `GROQ_MODEL` unset, so `MODEL` takes its default). -/

def CONFIG_MODEL : String := "openai/gpt-oss-120b"

def CONFIG_FALLBACK_MODEL : String := "openai/gpt-oss-20b"

def CONFIG_MAX_HISTORY : Nat := 20

def CONFIG_MAX_ITERATIONS : Nat := 5

def CONFIG_CACHE_TTL : ℚ := 5 * 60 * 1000

def CONFIG_MAX_RETRIES : Nat := 3

def CONFIG_RETRY_BASE_DELAY : ℚ := 2000

/-! ## Key normalization and validation (`normalizeKey`, `validateKey`) -/

/-- Is `c` kept by the filter `replace(/[^a-z0-9_]/g, "")`? -/
def keyChar (c : Char) : Bool :=
  ('a' ≤ c && c ≤ 'z') || ('0' ≤ c && c ≤ '9') || c == '_'

/-- `replace(/\s+/g, "_")`: every maximal whitespace run becomes one
underscore.  The boolean records whether the previous character was part of a
whitespace run. -/
def collapseWs : Bool → List Char → List Char
  | _, [] => []
  | prevWs, c :: rest =>
    if c.isWhitespace then
      (if prevWs then [] else ['_']) ++ collapseWs true rest
    else
      c :: collapseWs false rest

/-- `normalizeKey`: lowercase, whitespace runs to `_`, then strip everything
outside `[a-z0-9_]`. -/
def normalizeKey (key : String) : String :=
  ⟨(collapseWs false (key.data.map Char.toLower)).filter keyChar⟩

/-- The fixed denylist of overly generic key names in `validateKey`. -/
def genericKeys : List String :=
  ["key", "value", "info", "data", "thing", "item", "note", "fact",
   "detail", "text", "content", "field", "var", "temp", "test"]

/-- Result of `validateKey`: either a validation error message or the
normalized key. -/
inductive KeyValidation where
  | invalid (error : String)
  | ok (normalized : String)
deriving DecidableEq

/-- `validateKey`: length bounds, then the generic-name denylist.  (The
"might be too vague" branch only logs a warning and is not modeled.) -/
def validateKey (key : String) : KeyValidation :=
  let normalized := normalizeKey key
  if normalized.length < 2 then .invalid "Key too short (min 2 chars)"
  else if normalized.length > 100 then .invalid "Key too long (max 100 chars)"
  else if genericKeys.contains normalized then
    .invalid ("Key \"" ++ normalized ++
      "\" is too generic. Use descriptive names like \"github_token\" or \"mom_birthday\"")
  else .ok normalized

/-! ## `APIKeyManager` (the credential pool)

Keys are identified by their position in `this.keys`; per-key state lives in
`keys`.  (The JS `Map` is keyed by the secret string; as the strings loaded
from distinct environment variables are distinct, position is a faithful
identifier.)  `idx` is the rotation cursor. -/

structure KeyState where
  blockedUntil : ℚ
  failCount : Nat
deriving DecidableEq

/-- Default used for out-of-range `getD` lookups (never reached: all indices
are reduced mod the pool size). -/
def defKeyState : KeyState := ⟨0, 0⟩

structure Mgr where
  keys : List KeyState
  idx : Nat
deriving DecidableEq

/-- The eligibility test in `pick`'s round-robin loop:
`state.blockedUntil <= now && state.failCount < 3`. -/
def eligibleKey (now : ℚ) (s : KeyState) : Bool :=
  decide (s.blockedUntil ≤ now) && decide (s.failCount < 3)

/-- The round-robin scan in `pick`: probe `(idx + i) % n` for `i = 0, 1, ...`
until an eligible key is found or all `n` offsets are exhausted.  `rem` is the
number of probes left (`n - i`), making the `for` loop structurally
recursive. -/
def pickScan (keys : List KeyState) (idx : Nat) (now : ℚ) : Nat → Nat → Option Nat
  | _, 0 => none
  | i, rem + 1 =>
    let j := (idx + i) % keys.length
    if eligibleKey now (keys.getD j defKeyState) then some j
    else pickScan keys idx now (i + 1) rem

/-- One comparison of the fallback fold in `pick`. -/
def bestStep (keys : List KeyState) (best k : Nat) : Nat :=
  if (keys.getD k defKeyState).blockedUntil <
      (keys.getD best defKeyState).blockedUntil then k else best

/-- The fallback in `pick`: the fold `best := k if k.blockedUntil <
best.blockedUntil` over the whole pool, starting from index 0. -/
def bestBlockedIdx (keys : List KeyState) : Nat :=
  List.foldl (bestStep keys) 0 (List.range keys.length)

/-- `APIKeyManager.pick`: returns the chosen index and the updated manager
(the cursor advances only on the round-robin branch). -/
def pick (m : Mgr) (now : ℚ) : Nat × Mgr :=
  match pickScan m.keys m.idx now 0 m.keys.length with
  | some j => (j, { m with idx := (j + 1) % m.keys.length })
  | none => (bestBlockedIdx m.keys, m)

/-- `APIKeyManager.block`: `blockedUntil = now + ms`, `failCount++`. -/
def blockKey (m : Mgr) (j : Nat) (ms now : ℚ) : Mgr :=
  { m with keys := m.keys.set j ⟨now + ms, (m.keys.getD j defKeyState).failCount + 1⟩ }

/-- `APIKeyManager.resetFailures`. -/
def resetFailures (m : Mgr) (j : Nat) : Mgr :=
  { m with keys := m.keys.set j ⟨(m.keys.getD j defKeyState).blockedUntil, 0⟩ }

/-- `APIKeyManager.waitTime`: `Math.max(0, blockedUntil - now)`, written as a
conditional so that it evaluates inside the kernel. -/
def waitTime (m : Mgr) (j : Nat) (now : ℚ) : ℚ :=
  let d := (m.keys.getD j defKeyState).blockedUntil - now
  if d ≤ 0 then 0 else d

/-! ## `MemoryCache`

Per-user cache entries: a JS `Map` (association list with JS insertion-order
semantics: `set` updates in place, `get` finds the unique binding, `delete`
removes it) plus the entry timestamp.  `_entry` lazily deletes expired
entries, so every operation is state-passing. -/

/-- JS `Map.get` on an association list. -/
def jsGet {α : Type} (m : List (String × α)) (k : String) : Option α :=
  match m.find? (fun p => p.1 == k) with
  | some p => some p.2
  | none => none

/-- JS `Map.set`: update the existing binding in place, else append. -/
def jsSet {α : Type} (m : List (String × α)) (k : String) (v : α) : List (String × α) :=
  match m with
  | [] => [(k, v)]
  | p :: rest => if p.1 == k then (k, v) :: rest else p :: jsSet rest k v

/-- JS `Map.delete` (bindings are unique, so removing the first suffices). -/
def jsDel {α : Type} (m : List (String × α)) (k : String) : List (String × α) :=
  match m with
  | [] => []
  | p :: rest => if p.1 == k then rest else p :: jsDel rest k

/-- One per-user cache entry: the key-value map and its timestamp `ts`. -/
structure CEntry where
  map : List (String × String)
  ts : ℚ
deriving DecidableEq

/-- The cache: `this.store`, a JS `Map` from user id to entry. -/
structure MCache where
  entries : List (String × CEntry)
deriving DecidableEq

/-- `MemoryCache._entry`: returns the entry if present and fresh; an expired
entry is deleted and reported absent. -/
def cacheEntry (c : MCache) (uid : String) (now : ℚ) : Option CEntry × MCache :=
  match jsGet c.entries uid with
  | none => (none, c)
  | some e =>
    if now - e.ts > CONFIG_CACHE_TTL then (none, ⟨jsDel c.entries uid⟩)
    else (some e, c)

/-- `MemoryCache.getAll`: the whole mapping, or `none` on miss/expiry. -/
def cacheGetAll (c : MCache) (uid : String) (now : ℚ) :
    Option (List (String × String)) × MCache :=
  match cacheEntry c uid now with
  | (some e, c1) => (some e.map, c1)
  | (none, c1) => (none, c1)

/-- `MemoryCache.get`: one value (JS `?? null` becomes `none`). -/
def cacheGet (c : MCache) (uid key : String) (now : ℚ) : Option String × MCache :=
  match cacheEntry c uid now with
  | (some e, c1) => (jsGet e.map key, c1)
  | (none, c1) => (none, c1)

/-- `MemoryCache.setAll`: rebuild the per-user map from the fetched rows and
stamp it with the current time. -/
def cacheSetAll (c : MCache) (uid : String) (rows : List (String × String)) (now : ℚ) :
    MCache :=
  ⟨jsSet c.entries uid ⟨rows.foldl (fun m p => jsSet m p.1 p.2) [], now⟩⟩

/-- `MemoryCache.upsert`: update the map in place and refresh the timestamp
only when a fresh entry already exists; a miss is not implicitly created. -/
def cacheUpsert (c : MCache) (uid key value : String) (now : ℚ) : MCache :=
  match cacheEntry c uid now with
  | (some e, c1) => ⟨jsSet c1.entries uid ⟨jsSet e.map key value, now⟩⟩
  | (none, c1) => c1

/-- `MemoryCache.remove`: delete one key (timestamp unchanged). -/
def cacheRemove (c : MCache) (uid key : String) (now : ℚ) : MCache :=
  match cacheEntry c uid now with
  | (some e, c1) => ⟨jsSet c1.entries uid ⟨jsDel e.map key, e.ts⟩⟩
  | (none, c1) => c1

/-- `MemoryCache.isDuplicate`: `_entry(uid)?.map.get(key) === value`. -/
def cacheIsDuplicate (c : MCache) (uid key value : String) (now : ℚ) : Bool × MCache :=
  match cacheEntry c uid now with
  | (some e, c1) => (jsGet e.map key == some value, c1)
  | (none, c1) => (false, c1)

/-- `MemoryCache.invalidate`. -/
def cacheInvalidate (c : MCache) (uid : String) : MCache :=
  ⟨jsDel c.entries uid⟩

/-! ## The external fact store (`convex/memories.js`)

Rows in table order; `(userId, key)` is unique (maintained by `saveMemory`). -/

structure MRow where
  userId : String
  key : String
  value : String
deriving DecidableEq

structure Store where
  rows : List MRow
deriving DecidableEq

/-- `.withIndex("by_user_key").first()`. -/
def storeGet (st : Store) (uid key : String) : Option MRow :=
  st.rows.find? (fun f => f.userId == uid && f.key == key)

/-- Patch the first `(uid, key)` row's value in place. -/
def patchFirst (rows : List MRow) (uid key v : String) : List MRow :=
  match rows with
  | [] => []
  | f :: rest =>
    if f.userId == uid && f.key == key then { f with value := v } :: rest
    else f :: patchFirst rest uid key v

/-- `saveMemory`: patch the existing row, else insert a new one. -/
def storeSave (st : Store) (uid key v : String) : Store :=
  match storeGet st uid key with
  | some _ => ⟨patchFirst st.rows uid key v⟩
  | none => ⟨st.rows ++ [⟨uid, key, v⟩]⟩

/-- `listMemories`: every row of this user, in table order. -/
def storeList (st : Store) (uid : String) : List MRow :=
  st.rows.filter (fun f => f.userId == uid)

/-- `deleteMemory`: remove the first `(uid, key)` row; reports found/not. -/
def storeDelete (st : Store) (uid key : String) : Bool × Store :=
  match storeGet st uid key with
  | some _ => (true, ⟨st.rows.filter
      (fun f => !(f.userId == uid && f.key == key))⟩)
  | none => (false, st)

/-- `searchMemories`'s `normalizeText`: lowercase, drop `_`, whitespace, `-`. -/
def searchNormalize (s : String) : String :=
  ⟨(s.data.map Char.toLower).filter (fun c => !(c == '_' || c.isWhitespace || c == '-'))⟩

/-- Replace the suffix `suf` by `repl` when it matches (one JS
`replace(/suf$/, repl)` step). -/
def replaceSuffix (l suf repl : List Char) : List Char :=
  if suf.isSuffixOf l then l.take (l.length - suf.length) ++ repl else l

/-- `searchMemories`'s `stemWord`: the chained suffix replacements, applied in
source order to the result of the previous one. -/
def stemWord (s : String) : String :=
  ⟨replaceSuffix (replaceSuffix (replaceSuffix (replaceSuffix
      s.data ['s'] []) ['e', 's'] []) ['i', 'e', 's'] ['y']) ['i', 'n', 'g'] []⟩

/-- JS `s.toLowerCase()`. -/
def jsLower (s : String) : String := ⟨s.data.map Char.toLower⟩

/-- Does one memory row match the search, per the predicate in
`searchMemories`? -/
def rowMatches (searchTerm : String) (searchWords : List String)
    (normalizedSearch stemmedSearch : String) (f : MRow) : Bool :=
  let normalizedKey := searchNormalize f.key
  let normalizedValue := searchNormalize f.value
  let stemmedKey := stemWord normalizedKey
  let stemmedValue := stemWord normalizedValue
  let wordMatch := searchWords.any (fun word =>
    let normalizedWord := searchNormalize word
    let stemmedWord := stemWord normalizedWord
    strIncludes normalizedKey normalizedWord ||
    strIncludes normalizedValue normalizedWord ||
    strIncludes stemmedKey stemmedWord ||
    strIncludes stemmedValue stemmedWord ||
    strIncludes (jsLower f.key) word ||
    strIncludes (jsLower f.value) word)
  let fullMatch :=
    strIncludes normalizedKey normalizedSearch ||
    strIncludes normalizedValue normalizedSearch ||
    strIncludes stemmedKey stemmedSearch ||
    strIncludes stemmedValue stemmedSearch ||
    strIncludes (jsLower f.key) searchTerm ||
    strIncludes (jsLower f.value) searchTerm
  wordMatch || fullMatch

/-- `searchMemories`: keyword filter over all of the user's rows. -/
def storeSearch (st : Store) (uid query : String) : List MRow :=
  let searchTerm := jsTrim (jsLower query)
  let normalizedSearch := searchNormalize searchTerm
  let stemmedSearch := stemWord normalizedSearch
  let searchWords := ((searchTerm.split Char.isWhitespace).filter
    (fun w => w.length > 0))
  (storeList st uid).filter
    (rowMatches searchTerm searchWords normalizedSearch stemmedSearch)

/-! ## `executeTool`

The model's tool calls arrive as JSON; a successfully parsed call is one of
the variants below (the required fields are supplied by the provider's schema
enforcement; an unrecognized tool name is `unknown`).  Convex calls are
modeled by the store functions above and counted: `reads` counts
`convex.query` calls, `writes` counts `convex.mutation` calls. -/

inductive ToolInv where
  | saveMemory (key value : String)
  | saveMemories (memories : List (String × String))
  | getMemory (key : Option String)
  | searchMemories (query : String)
  | deleteMemory (key : String)
  | unknown (name : String)
deriving DecidableEq

structure ToolOut where
  result : String
  cache : MCache
  store : Store
  reads : Nat
  writes : Nat
deriving DecidableEq

/-- JS truthiness of the `cached` / `args.key` string checks
(`null`/`undefined` and the empty string are falsy). -/
def optTruthy : Option String → Bool
  | none => false
  | some s => s != ""

/-- First pass of `save_memories`: validate, drop empties, skip duplicates;
accumulates the skip lines, the surviving `{key, value}` pairs, and the cache
(whose `isDuplicate` calls delete expired entries as they go). -/
def saveMemoriesScan (uid : String) (now : ℚ) :
    List (String × String) → MCache → List String × List (String × String) × MCache
  | [], c => ([], [], c)
  | (k0, v0) :: rest, c =>
    match validateKey k0 with
    | .invalid err =>
      let (rs, sv, c1) := saveMemoriesScan uid now rest c
      (("Skipped " ++ k0 ++ ": " ++ err) :: rs, sv, c1)
    | .ok key =>
      if jsTrim v0 = "" then
        let (rs, sv, c1) := saveMemoriesScan uid now rest c
        (("Skipped " ++ key ++ ": empty value") :: rs, sv, c1)
      else
        match cacheIsDuplicate c uid key v0 now with
        | (true, c1) =>
          let (rs, sv, c2) := saveMemoriesScan uid now rest c1
          (("Already saved: " ++ key) :: rs, sv, c2)
        | (false, c1) =>
          let (rs, sv, c2) := saveMemoriesScan uid now rest c1
          (rs, (key, v0) :: sv, c2)

/-- Second pass of `save_memories`: write through and update the cache. -/
def saveMemoriesWrite (uid : String) (now : ℚ) :
    List (String × String) → MCache → Store → List String × MCache × Store
  | [], c, st => ([], c, st)
  | (key, v) :: rest, c, st =>
    let st1 := storeSave st uid key v
    let c1 := cacheUpsert c uid key v now
    let (rs, c2, st2) := saveMemoriesWrite uid now rest c1 st1
    (("Saved: " ++ key) :: rs, c2, st2)

/-- `executeTool(name, args, userId)`. -/
def executeTool (inv : ToolInv) (uid : String) (c : MCache) (st : Store) (now : ℚ) :
    ToolOut :=
  match inv with
  | .saveMemory key value =>
    match validateKey key with
    | .invalid err => ⟨"Error: " ++ err, c, st, 0, 0⟩
    | .ok k =>
      if jsTrim value = "" then ⟨"Error: Cannot save empty value", c, st, 0, 0⟩
      else
        match cacheIsDuplicate c uid k value now with
        | (true, c1) => ⟨"Already saved: " ++ k, c1, st, 0, 0⟩
        | (false, c1) =>
          ⟨"Saved: " ++ k, cacheUpsert c1 uid k value now, storeSave st uid k value, 0, 1⟩
  | .saveMemories mems =>
    if mems.isEmpty then ⟨"Error: No memories provided", c, st, 0, 0⟩
    else
      let (skips, toSave, c1) := saveMemoriesScan uid now mems c
      let (saved, c2, st1) := saveMemoriesWrite uid now toSave c1 st
      let results := skips ++ saved
      ⟨if results.length > 0 then joinNl results else "No memories saved",
        c2, st1, 0, toSave.length⟩
  | .getMemory keyOpt =>
    if optTruthy keyOpt then
      let key := normalizeKey (keyOpt.getD "")
      match cacheGet c uid key now with
      | (cached, c1) =>
        if optTruthy cached then
          ⟨key ++ ": " ++ cached.getD "", c1, st, 0, 0⟩
        else
          match storeGet st uid key with
          | some f =>
            ⟨f.key ++ ": " ++ f.value, cacheUpsert c1 uid key f.value now, st, 1, 0⟩
          | none => ⟨"No memory found: " ++ key, c1, st, 1, 0⟩
    else
      let all := storeList st uid
      let c1 := cacheSetAll c uid (all.map (fun f => (f.key, f.value))) now
      if all.isEmpty then ⟨"No memories saved yet.", c1, st, 1, 0⟩
      else ⟨joinNl (all.map (fun f => f.key ++ ": " ++ f.value)), c1, st, 1, 0⟩
  | .searchMemories query =>
    if jsTrim query = "" then ⟨"Error: Search query cannot be empty", c, st, 0, 0⟩
    else
      let mems := storeSearch st uid query
      if mems.isEmpty then ⟨"Nothing found for: " ++ query, c, st, 1, 0⟩
      else ⟨joinNl (mems.map (fun f => f.key ++ ": " ++ f.value)), c, st, 1, 0⟩
  | .deleteMemory key0 =>
    let key := normalizeKey key0
    match storeDelete st uid key with
    | (true, st1) => ⟨"Deleted: " ++ key, cacheRemove c uid key now, st1, 0, 1⟩
    | (false, st1) => ⟨"No memory found: " ++ key, c, st1, 0, 1⟩
  | .unknown name => ⟨"Unknown tool: " ++ name, c, st, 0, 0⟩

/-! ## `groqChat` (the retrying completion client)

The provider is an oracle: attempt number `c` (a global counter threaded
through the whole turn) yields `outcomes c`.  An error carries the HTTP
status, the error message, and the already-parsed retry-after hint (the
result of matching the regex for the retry-after phrase against the message);
a missing status (as on the rethrown 400 `Error`) is modeled by the
`rephrase` error, which carries no status at all.  Request issuing, sleeps,
and blocking are recorded as events; the local clock advances by exactly the
slept durations. -/

structure ChatMsg where
  role : String
  content : Option String
deriving DecidableEq

structure ToolCall where
  id : String
  call : Option ToolInv
deriving DecidableEq

structure ModelMsg where
  content : Option String
  toolCalls : List ToolCall
deriving DecidableEq

structure ErrInfo where
  status : Nat
  retryAfterSecs : Option ℚ
  message : String
deriving DecidableEq

inductive AttemptOutcome where
  | success (m : ModelMsg)
  | failure (e : ErrInfo)
deriving DecidableEq

inductive GroqError where
  | rephrase
  | raw (e : ErrInfo)
deriving DecidableEq

inductive GroqRes where
  | ok (m : ModelMsg)
  | fail (e : GroqError)
deriving DecidableEq

structure Request where
  model : String
  msgs : List ChatMsg
  withTools : Bool
  keyIdx : Nat
deriving DecidableEq

inductive GEvent where
  | req (r : Request)
  | slept (ms : ℚ)
  | blocked (keyIdx : Nat) (ms : ℚ)
deriving DecidableEq

structure GroqOut where
  res : GroqRes
  mgr : Mgr
  now : ℚ
  ctr : Nat
  events : List GEvent
deriving DecidableEq

def requestsOf (evs : List GEvent) : List Request :=
  evs.filterMap (fun ev => match ev with | .req r => some r | _ => none)

/-- The body of the `for attempt` loop in `groqChat`.  `t` is the 1-based
attempt number; `fuel` is the number of loop iterations left
(`CONFIG_MAX_RETRIES - t + 1`); `fuel = 0` is the fall-through
`throw lastErr` after the loop (unreachable from the initial call).  Every
request goes to `CONFIG.MODEL` — the only model identifier `groqChat` ever
uses. -/
def groqChatGo (outcomes : Nat → AttemptOutcome) (msgs : List ChatMsg) (tools : Bool) :
    Nat → Nat → Mgr → ℚ → Nat → Option ErrInfo → GroqOut
  | 0, _, mgr, now, c, lastErr =>
    ⟨.fail (.raw (lastErr.getD ⟨0, none, ""⟩)), mgr, now, c, []⟩
  | fuel + 1, t, mgr, now, c, _ =>
    let pk := pick mgr now
    let k := pk.1
    let mgr1 := pk.2
    let w := waitTime mgr1 k now
    let now1 := now + w
    let pre := (if 0 < w then [GEvent.slept w] else []) ++
      [GEvent.req ⟨CONFIG_MODEL, msgs, tools, k⟩]
    match outcomes c with
    | .success m => ⟨.ok m, resetFailures mgr1 k, now1, c + 1, pre⟩
    | .failure e =>
      if e.status == 429 then
        let cooldown : ℚ := match e.retryAfterSecs with
          | some h => h * 1000 + 500
          | none => CONFIG_RETRY_BASE_DELAY * 2 ^ (t - 1)
        let mgr2 := blockKey mgr1 k cooldown now1
        if t < CONFIG_MAX_RETRIES then
          let rest := groqChatGo outcomes msgs tools fuel (t + 1) mgr2
            (now1 + cooldown) (c + 1) (some e)
          { rest with events :=
              pre ++ [GEvent.blocked k cooldown, GEvent.slept cooldown] ++ rest.events }
        else
          ⟨.fail (.raw e), mgr2, now1, c + 1, pre ++ [GEvent.blocked k cooldown]⟩
      else if e.status == 400 then
        ⟨.fail .rephrase, mgr1, now1, c + 1, pre⟩
      else if 500 ≤ e.status then
        if t < CONFIG_MAX_RETRIES then
          let rest := groqChatGo outcomes msgs tools fuel (t + 1) mgr1
            (now1 + CONFIG_RETRY_BASE_DELAY * (t : ℚ)) (c + 1) (some e)
          { rest with events :=
              pre ++ [GEvent.slept (CONFIG_RETRY_BASE_DELAY * (t : ℚ))] ++ rest.events }
        else
          ⟨.fail (.raw e), mgr1, now1, c + 1, pre⟩
      else
        ⟨.fail (.raw e), mgr1, now1, c + 1, pre⟩

/-- `groqChat(messages, tools)`. -/
def groqChat (outcomes : Nat → AttemptOutcome) (msgs : List ChatMsg) (tools : Bool)
    (mgr : Mgr) (now : ℚ) (c : Nat) : GroqOut :=
  groqChatGo outcomes msgs tools CONFIG_MAX_RETRIES 1 mgr now c none

/-! ## `chat` (the conversation orchestrator)

One user is modeled (per-user state is independent; the queue section below
covers serialization).  `stripMD` abstracts the regex-based `stripMarkdown`
text normalization, whose internals no claim depends on; `doPrune` is the
outcome of the `Math.random() < 0.1` roll.  History pushes are additionally
recorded in `pushes`, the provider requests in `reqs`, and each tool round's
results in `rounds`. -/

structure HMsg where
  role : String
  content : String
  ts : ℚ
deriving DecidableEq

/-- `pushHistory`: append, then FIFO-trim to `MAX_HISTORY`. -/
def pushHistoryL (h : List HMsg) (m : HMsg) : List HMsg :=
  let h1 := h ++ [m]
  h1.drop (h1.length - CONFIG_MAX_HISTORY)

/-- `clearOldHistory` (default `maxAge` of 30 minutes). -/
def clearOldHistory (h : List HMsg) (now : ℚ) : List HMsg :=
  h.filter (fun m => now - m.ts < 30 * 60 * 1000)

/-- JS `arr.slice(-n)`: the last `n` elements. -/
def lastN {α : Type} (n : Nat) (l : List α) : List α :=
  l.drop (l.length - n)

/-- The main system prompt (its natural-language body is out of scope for the
core and never inspected by any code path; it is abbreviated here). -/
def SYSTEM_PROMPT : String := "You are a memory assistant with persistent database access via tools."

/-- The reduced system instruction used by the fallback call. -/
def FALLBACK_SYSTEM : String :=
  "You are a helpful memory assistant. Answer from conversation context. Keep it short, no markdown."

structure LoopSt where
  msgs : List ChatMsg
  hist : List HMsg
  cache : MCache
  store : Store
  mgr : Mgr
  now : ℚ
  ctr : Nat
  pushes : List HMsg
  groqCalls : Nat
  reqs : List Request
  rounds : List (List String)
deriving DecidableEq

inductive ChatExit where
  | plainText (reply : String)
  | budget (joined : String)
  | fbReturned (txt : String)
  | thrownErr (msg : String)
  | fellThrough
deriving DecidableEq

/-- The `err.status === 400 || err.status === 429 || err.status >= 500` guard
in the catch block of `chat` (a rethrown `Error` carries no status, so every
comparison on it is false). -/
def fallbackCond : GroqError → Bool
  | .rephrase => false
  | .raw e => e.status == 400 || e.status == 429 || decide (500 ≤ e.status)

def errMessageOf : GroqError → String
  | .rephrase => "Invalid request format. Please try rephrasing."
  | .raw e => e.message

/-- The reduced message list for the fallback call: the short system
instruction plus the last five history turns. -/
def fbMsgsOf (st1 : LoopSt) : List ChatMsg :=
  ⟨"system", some FALLBACK_SYSTEM⟩ ::
    (lastN 5 st1.hist).map (fun h => ⟨h.role, some h.content⟩)

/-- The fallback branch of the catch block in `chat`: one `groqChat` call
with the reduced messages and no tools; on success its answer is pushed to
history and the turn returns immediately; on failure the turn raises the
temporarily-unavailable error. -/
def chatFallback (outcomes : Nat → AttemptOutcome) (st1 : LoopSt) : ChatExit × LoopSt :=
  let g2 := groqChat outcomes (fbMsgsOf st1) false st1.mgr st1.now st1.ctr
  let st2 := { st1 with
    mgr := g2.mgr
    now := g2.now
    ctr := g2.ctr
    groqCalls := st1.groqCalls + 1
    reqs := st1.reqs ++ requestsOf g2.events }
  match g2.res with
  | .ok m =>
    let txt := (m.content).getD "Sorry, please try again in a moment."
    let aTurn : HMsg := ⟨"assistant", txt, st2.now⟩
    (.fbReturned txt,
      { st2 with
        hist := pushHistoryL st2.hist aTurn
        pushes := st2.pushes ++ [aTurn] })
  | .fail _ =>
    (.thrownErr "Service temporarily unavailable. Please try again in a moment.", st2)

/-- The per-round tool-call execution loop: parse failures become the fixed
error result; each call appends one tool message and one entry of
`toolResults`. -/
def execCalls (uid : String) : List ToolCall → LoopSt → List String × LoopSt
  | [], st => ([], st)
  | tc :: rest, st =>
    match tc.call with
    | none =>
      let st1 := { st with msgs :=
        st.msgs ++ [⟨"tool", some "Error: invalid arguments format"⟩] }
      let r := execCalls uid rest st1
      ("Error: invalid arguments format" :: r.1, r.2)
    | some inv =>
      let t := executeTool inv uid st.cache st.store st.now
      let st1 := { st with
        cache := t.cache
        store := t.store
        msgs := st.msgs ++ [⟨"tool", some t.result⟩] }
      let r := execCalls uid rest st1
      (t.result :: r.1, r.2)

/-- The `for iter` loop of `chat`.  `iter` is the 1-based round number and
`fuel` the remaining rounds (`CONFIG_MAX_ITERATIONS - iter + 1`). -/
def chatLoop (outcomes : Nat → AttemptOutcome) (uid : String) :
    Nat → Nat → LoopSt → ChatExit × LoopSt
  | 0, _, st => (.fellThrough, st)
  | fuel + 1, iter, st =>
    let g := groqChat outcomes st.msgs true st.mgr st.now st.ctr
    let st1 := { st with
      mgr := g.mgr
      now := g.now
      ctr := g.ctr
      groqCalls := st.groqCalls + 1
      reqs := st.reqs ++ requestsOf g.events }
    match g.res with
    | .fail e =>
      if fallbackCond e then chatFallback outcomes st1
      else (.thrownErr (errMessageOf e), st1)
    | .ok m =>
      if m.toolCalls.isEmpty then
        let reply := match m.content with
          | some sCont => if sCont = "" then "I\x27m here to help you remember things." else sCont
          | none => "I\x27m here to help you remember things."
        let aTurn : HMsg := ⟨"assistant", reply, st1.now⟩
        (.plainText reply,
          { st1 with
            hist := pushHistoryL st1.hist aTurn
            pushes := st1.pushes ++ [aTurn] })
      else
        let st2 := { st1 with msgs := st1.msgs ++ [⟨"assistant", m.content⟩] }
        let er := execCalls uid m.toolCalls st2
        let results := er.1
        let st3 := { er.2 with rounds := er.2.rounds ++ [results] }
        if iter = CONFIG_MAX_ITERATIONS ∧ results.length > 0 then
          (.budget (joinNl results), st3)
        else chatLoop outcomes uid fuel (iter + 1) st3

structure SysState where
  hist : List HMsg
  cache : MCache
  store : Store
  mgr : Mgr
  now : ℚ
  ctr : Nat
deriving DecidableEq

inductive ChatRes where
  | reply (text : String)
  | thrown (msg : String)
deriving DecidableEq

structure ChatOut where
  result : ChatRes
  exit : ChatExit
  finalAnswer : Option String
  hist : List HMsg
  cache : MCache
  store : Store
  mgr : Mgr
  now : ℚ
  ctr : Nat
  pushes : List HMsg
  groqCalls : Nat
  reqs : List Request
  rounds : List (List String)
deriving DecidableEq

/-- The apology used when the loop produced an empty final response. -/
def PROCESSED_DEFAULT : String :=
  "I processed your request but couldn\x27t generate a complete response. Please try again."

/-- The turn prologue of `chat`: the probabilistic history prune, pushing the
user turn, warming the cache, and assembling the initial model messages. -/
def chatInit (doPrune : Bool) (uid userMessage : String) (s : SysState) : LoopSt :=
  let h0 := if doPrune then clearOldHistory s.hist s.now else s.hist
  let userTurn : HMsg := ⟨"user", userMessage, s.now⟩
  let h1 := pushHistoryL h0 userTurn
  let warm := cacheGetAll s.cache uid s.now
  let cache1 := match warm.1 with
    | some _ => warm.2
    | none => cacheSetAll warm.2 uid
        ((storeList s.store uid).map (fun f => (f.key, f.value))) s.now
  let msgs0 : List ChatMsg :=
    ⟨"system", some SYSTEM_PROMPT⟩ :: h1.map (fun h => ⟨h.role, some h.content⟩)
  ⟨msgs0, h1, cache1, s.store, s.mgr, s.now, s.ctr, [userTurn], 0, [], []⟩

/-- `chat(userId, userMessage)`: the whole turn. -/
def chat (stripMD : String → String) (doPrune : Bool)
    (outcomes : Nat → AttemptOutcome) (uid userMessage : String) (s : SysState) :
    ChatOut :=
  let r := chatLoop outcomes uid CONFIG_MAX_ITERATIONS 1 (chatInit doPrune uid userMessage s)
  let st := r.2
  match r.1 with
  | .fbReturned txt =>
    ⟨.reply (stripMD txt), .fbReturned txt, some txt, st.hist, st.cache, st.store,
      st.mgr, st.now, st.ctr, st.pushes, st.groqCalls, st.reqs, st.rounds⟩
  | .thrownErr msg =>
    ⟨.thrown msg, .thrownErr msg, none, st.hist, st.cache, st.store,
      st.mgr, st.now, st.ctr, st.pushes, st.groqCalls, st.reqs, st.rounds⟩
  | ex =>
    let fr0 := match ex with | .plainText rtext => rtext | .budget j => j | _ => ""
    let fr := if fr0 = "" then PROCESSED_DEFAULT else fr0
    let aTurn : HMsg := ⟨"assistant", fr, st.now⟩
    ⟨.reply (stripMD fr), ex, some fr, pushHistoryL st.hist aTurn, st.cache, st.store,
      st.mgr, st.now, st.ctr, st.pushes ++ [aTurn], st.groqCalls, st.reqs, st.rounds⟩

/-- The error-to-user translation in the `bot.on(message("text"))` catch
block: only messages containing the temporary-unavailability marker pass
through; everything else becomes the generic apology. -/
def botErrorReply (errMsg : String) : String :=
  if strIncludes errMsg "temporarily unavailable" then errMsg
  else "Sorry, something went wrong. Please try again in a moment."

/-! ## `RequestQueue` (per-user promise-chain serialization)

`enqueue(uid, fn)` chains `fn` behind the stored tail promise with
`prev.finally(() => fn().then(resolve, reject))` and stores
`task.catch(() => {})` as the new tail.  For one user identity this yields
the scheduler below: task `k` becomes startable once the previous chain
promise has settled, which happens exactly when task `k - 1` has settled
with either outcome (`finally` ignores the outcome and the stored tail has
its rejection swallowed by the `catch`); the promise returned to the caller
settles with exactly the outcome of `fn` itself (`then(resolve, reject)`).
`script k` is the eventual settlement of the `k`-th enqueued `fn`; the
scheduler chooses when pending work completes, so runs are arbitrary
interleavings permitted by the step relation. -/

inductive TaskOutcome where
  | ok (v : String)
  | err (v : String)
deriving DecidableEq

/-- What the `k`-th caller of `enqueue` observes: `task` is resolved/rejected
with the settlement of `fn()` itself. -/
def callerOutcome (script : Nat → TaskOutcome) (k : Nat) : TaskOutcome := script k

/-- What the stored tail promise (`task.catch(() => {})`) settles with: a
rejection is swallowed into a fulfillment. -/
def chainOutcome (script : Nat → TaskOutcome) (k : Nat) : TaskOutcome :=
  match script k with
  | .ok v => .ok v
  | .err _ => .ok ""

structure QSt where
  started : Nat → Bool
  settled : Nat → Bool

def QSt.init : QSt := ⟨fun _ => false, fun _ => false⟩

inductive QEv where
  | start (k : Nat)
  | settle (k : Nat)
deriving DecidableEq

/-- One scheduler step for `n` tasks enqueued under one user identity.
`start k` fires the `finally` continuation that invokes the `k`-th `fn`; it
is enabled as soon as the previous chain promise has settled (for `k = 0`,
the chain starts from `Promise.resolve()`), with no condition on whether the
previous task fulfilled or rejected.  `settle k` is the settlement of a
running task, with outcome `script k`. -/
inductive QStep (n : Nat) : QSt → QEv → QSt → Prop where
  | start {s : QSt} (k : Nat) (hk : k < n)
      (hprev : k = 0 ∨ ∃ k0, k = k0 + 1 ∧ s.settled k0 = true)
      (hns : s.started k = false) :
      QStep n s (.start k) ⟨fun i => if i = k then true else s.started i, s.settled⟩
  | settle {s : QSt} (k : Nat) (hk : k < n)
      (hs : s.started k = true) (hns : s.settled k = false) :
      QStep n s (.settle k) ⟨s.started, fun i => if i = k then true else s.settled i⟩

/-- A run of the scheduler. -/
inductive QTrace (n : Nat) : QSt → List QEv → QSt → Prop where
  | nil {s : QSt} : QTrace n s [] s
  | cons {s s1 s2 : QSt} {e : QEv} {es : List QEv} :
      QStep n s e s1 → QTrace n s1 es s2 → QTrace n s (e :: es) s2

/-- The contents of the assistant-role history pushes of a turn. -/
def assistContents (l : List HMsg) : List String :=
  (l.filter (fun p => p.role == "assistant")).map HMsg.content

/-! ## Concrete scenario constants

Inputs used by the closed counterexample and witness theorems below. -/

/-- A three-credential pool: key 0 eligible, key 1 blocked far in the future
with many failures, key 2 eligible; cursor at 1. -/
def exPool : Mgr := ⟨[⟨0, 0⟩, ⟨100, 5⟩, ⟨0, 2⟩], 1⟩

/-- A pool of three never-blocked credentials, cursor at 0. -/
def exPool3 : Mgr := ⟨[⟨0, 0⟩, ⟨0, 0⟩, ⟨0, 0⟩], 0⟩

/-- A single-credential pool. -/
def exPool1 : Mgr := ⟨[⟨0, 0⟩], 0⟩

/-- A rate-limit error carrying a whole-second retry-after hint. -/
def exErr429 : ErrInfo := ⟨429, some 7, "Rate limit reached: try again in 7s"⟩

/-- A malformed-request error. -/
def exErr400 : ErrInfo := ⟨400, none, "400 status: malformed request"⟩

/-- Oracle: every attempt fails with the rate-limit error. -/
def exOut429 : Nat → AttemptOutcome := fun _ => .failure exErr429

/-- Oracle: every attempt fails with the malformed-request error. -/
def exOut400 : Nat → AttemptOutcome := fun _ => .failure exErr400

/-- Oracle: the three primary attempts are rate-limited, then the fallback
attempt succeeds with a plain answer. -/
def exOutFb : Nat → AttemptOutcome := fun c =>
  if c < 3 then .failure exErr429 else .success ⟨some "Recovered", []⟩

/-- Oracle: the model always answers with plain text. -/
def exOutText : Nat → AttemptOutcome := fun _ => .success ⟨some "Hello", []⟩

/-- The tool-calling reply used round after round: one `get_memory` call. -/
def exToolMsg : ModelMsg := ⟨some "", [⟨"call_1", some (.getMemory (some "github_token"))⟩]⟩

/-- Oracle: the model requests tool calls on every round. -/
def exOutTools : Nat → AttemptOutcome := fun _ => .success exToolMsg

/-- An initial per-user system state: empty history, cache, store; one
credential; clock and counter at zero. -/
def exState : SysState := ⟨[], ⟨[]⟩, ⟨[]⟩, exPool1, 0, 0⟩

/-- A cache holding a fresh entry for user `"u"`: one mapping, stamped 0. -/
def exCacheFresh : MCache := ⟨[("u", ⟨[("color", "blue")], 0⟩)]⟩

/-- Two enqueued tasks: the first rejects, the second fulfills. -/
def qWitScript : Nat → TaskOutcome := fun k => if k = 0 then .err "boom" else .ok "done"

/-- The serialized run of the two tasks: each starts only after the previous
one settled. -/
def qWitEvents : List QEv := [QEv.start 0, QEv.settle 0, QEv.start 1, QEv.settle 1]

/-- The scheduler state after both tasks ran. -/
def qWitFinal : QSt :=
  ⟨fun i => if i = 1 then true else if i = 0 then true else false,
   fun i => if i = 1 then true else if i = 0 then true else false⟩

/-! ## Credential-pool lemmas -/

theorem pickScan_some {keys : List KeyState} {idx : Nat} {now : ℚ} :
    ∀ {rem i j : Nat}, pickScan keys idx now i rem = some j →
      ∃ d, d < rem ∧ j = (idx + (i + d)) % keys.length ∧
        eligibleKey now (keys.getD j defKeyState) = true ∧
        ∀ d2 < d, eligibleKey now
          (keys.getD ((idx + (i + d2)) % keys.length) defKeyState) = false := by
  intro rem
  induction rem with
  | zero => intro i j h; simp [pickScan] at h
  | succ rem ih =>
    intro i j h
    rw [pickScan] at h
    cases he : eligibleKey now (keys.getD ((idx + i) % keys.length) defKeyState) with
    | true =>
      rw [he, if_pos rfl] at h
      obtain rfl : (idx + i) % keys.length = j := by injection h
      refine ⟨0, Nat.succ_pos rem, by simp, by simpa using he,
        fun d2 hd2 => absurd hd2 (Nat.not_lt_zero d2)⟩
    | false =>
      simp only [he, Bool.false_eq_true, if_false] at h
      obtain ⟨d, hd, hj, helig, hmin⟩ := ih h
      refine ⟨d + 1, by omega, ?_, helig, ?_⟩
      · have hh : i + (d + 1) = i + 1 + d := by omega
        rw [hh]; exact hj
      · intro d2 hd2
        cases d2 with
        | zero => simpa using he
        | succ d3 =>
          have hh : i + (d3 + 1) = i + 1 + d3 := by omega
          rw [hh]
          exact hmin d3 (by omega)

theorem pickScan_none {keys : List KeyState} {idx : Nat} {now : ℚ} :
    ∀ {rem i : Nat}, pickScan keys idx now i rem = none →
      ∀ d, d < rem → eligibleKey now
        (keys.getD ((idx + (i + d)) % keys.length) defKeyState) = false := by
  intro rem
  induction rem with
  | zero => intro i _ d hd; exact absurd hd (Nat.not_lt_zero d)
  | succ rem ih =>
    intro i h d hd
    rw [pickScan] at h
    cases he : eligibleKey now (keys.getD ((idx + i) % keys.length) defKeyState) with
    | true => rw [he, if_pos rfl] at h; exact absurd h (by simp)
    | false =>
      simp only [he, Bool.false_eq_true, if_false] at h
      cases d with
      | zero => simpa using he
      | succ d3 =>
        have hh : i + (d3 + 1) = i + 1 + d3 := by omega
        rw [hh]
        exact ih h d3 (by omega)

theorem bestFold_spec (keys : List KeyState) :
    ∀ m, 0 < m →
      List.foldl (bestStep keys) 0 (List.range m) < m ∧
      (∀ k < m,
        (keys.getD (List.foldl (bestStep keys) 0 (List.range m)) defKeyState).blockedUntil ≤
          (keys.getD k defKeyState).blockedUntil) ∧
      (∀ k < List.foldl (bestStep keys) 0 (List.range m),
        (keys.getD (List.foldl (bestStep keys) 0 (List.range m)) defKeyState).blockedUntil <
          (keys.getD k defKeyState).blockedUntil) := by
  intro m
  induction m with
  | zero => intro h; exact absurd h (lt_irrefl 0)
  | succ m ih =>
    intro _
    rcases Nat.eq_zero_or_pos m with h0 | hpos
    · subst h0
      have hfold : List.foldl (bestStep keys) 0 (List.range 1) = 0 := by
        simp [List.range_succ, bestStep]
      rw [hfold]
      refine ⟨Nat.one_pos, ?_, ?_⟩
      · intro k hk
        interval_cases k
        exact le_refl _
      · intro k hk; exact absurd hk (Nat.not_lt_zero k)
    · obtain ⟨hb, hle, hlt⟩ := ih hpos
      have hfold : List.foldl (bestStep keys) 0 (List.range (m + 1)) =
          bestStep keys (List.foldl (bestStep keys) 0 (List.range m)) m := by
        rw [List.range_succ, List.foldl_append, List.foldl_cons, List.foldl_nil]
      set b := List.foldl (bestStep keys) 0 (List.range m) with hbdef
      rw [hfold]
      unfold bestStep
      by_cases hc : (keys.getD m defKeyState).blockedUntil <
          (keys.getD b defKeyState).blockedUntil
      · rw [if_pos hc]
        refine ⟨by omega, ?_, ?_⟩
        · intro k hk
          rcases Nat.lt_succ_iff_lt_or_eq.mp hk with hk2 | rfl
          · exact le_of_lt (lt_of_lt_of_le hc (hle k hk2))
          · exact le_refl _
        · intro k hk
          exact lt_of_lt_of_le hc (hle k hk)
      · rw [if_neg hc]
        refine ⟨by omega, ?_, hlt⟩
        intro k hk
        rcases Nat.lt_succ_iff_lt_or_eq.mp hk with hk2 | rfl
        · exact hle k hk2
        · exact le_of_not_lt hc

/-- Claim C1: `APIKeyManager.pick` — when some credential is eligible
(`blockedUntil <= now` and `failCount < 3`), the round-robin scan from the
cursor returns the first eligible credential and advances the cursor just
past it (so it never returns an ineligible credential while any is
eligible); when none is eligible it returns the credential with the smallest
`blockedUntil`, ties broken by pool order, without touching the manager
state; and with a single configured credential it always returns index 0,
that credential, regardless of state. -/
theorem c1_pick_selection (m : Mgr) (now : ℚ) (hne : m.keys ≠ []) :
    ((∃ i, i < m.keys.length ∧ eligibleKey now
        (m.keys.getD ((m.idx + i) % m.keys.length) defKeyState) = true) →
      ∃ i0, i0 < m.keys.length ∧
        (pick m now).1 = (m.idx + i0) % m.keys.length ∧
        eligibleKey now (m.keys.getD ((pick m now).1) defKeyState) = true ∧
        (∀ i2 < i0, eligibleKey now
          (m.keys.getD ((m.idx + i2) % m.keys.length) defKeyState) = false) ∧
        (pick m now).2 = { m with idx := ((pick m now).1 + 1) % m.keys.length }) ∧
    ((∀ j, j < m.keys.length → eligibleKey now (m.keys.getD j defKeyState) = false) →
      (pick m now).1 < m.keys.length ∧
      (∀ k, k < m.keys.length →
        (m.keys.getD (pick m now).1 defKeyState).blockedUntil ≤
          (m.keys.getD k defKeyState).blockedUntil) ∧
      (∀ k, k < (pick m now).1 →
        (m.keys.getD (pick m now).1 defKeyState).blockedUntil <
          (m.keys.getD k defKeyState).blockedUntil) ∧
      (pick m now).2 = m) ∧
    (m.keys.length = 1 → (pick m now).1 = 0) := by
  have hlen : 0 < m.keys.length := List.length_pos.mpr hne
  refine ⟨?_, ?_, ?_⟩
  · rintro ⟨i, hi, helig⟩
    cases hp : pickScan m.keys m.idx now 0 m.keys.length with
    | none =>
      have hnone := pickScan_none hp i hi
      simp only [Nat.zero_add] at hnone
      rw [hnone] at helig
      exact Bool.noConfusion helig
    | some j =>
      obtain ⟨d, hd, hj, heligj, hmin⟩ := pickScan_some hp
      simp only [Nat.zero_add] at hj hmin
      have hpick1 : (pick m now).1 = j := by simp [pick, hp]
      have hpick2 : (pick m now).2 = { m with idx := (j + 1) % m.keys.length } := by
        simp [pick, hp]
      refine ⟨d, hd, by rw [hpick1]; exact hj, by rw [hpick1]; exact heligj,
        fun i2 hi2 => hmin i2 hi2, by rw [hpick2, hpick1]⟩
  · intro hall
    cases hp : pickScan m.keys m.idx now 0 m.keys.length with
    | some j =>
      obtain ⟨d, hd, hj, heligj, _⟩ := pickScan_some hp
      have hjlt : j < m.keys.length := by
        rw [hj]; exact Nat.mod_lt _ hlen
      rw [hall j hjlt] at heligj
      exact Bool.noConfusion heligj
    | none =>
      have hpick1 : (pick m now).1 = bestBlockedIdx m.keys := by simp [pick, hp]
      have hpick2 : (pick m now).2 = m := by simp [pick, hp]
      obtain ⟨hb, hle, hlt⟩ := bestFold_spec m.keys m.keys.length hlen
      rw [hpick1, hpick2]
      exact ⟨hb, fun k hk => hle k hk, fun k hk => hlt k hk, rfl⟩
  · intro h1
    cases hp : pickScan m.keys m.idx now 0 m.keys.length with
    | some j =>
      obtain ⟨d, hd, hj, _, _⟩ := pickScan_some hp
      have : (pick m now).1 = j := by simp [pick, hp]
      rw [this, hj, h1, Nat.mod_one]
    | none =>
      have hpick1 : (pick m now).1 = bestBlockedIdx m.keys := by simp [pick, hp]
      obtain ⟨hb, _, _⟩ := bestFold_spec m.keys m.keys.length hlen
      rw [hpick1]
      unfold bestBlockedIdx
      omega

/-- Witness for C1 at the concrete pool `exPool` and time 5. -/
theorem c1_pick_selection_witness :
    exPool.keys ≠ [] ∧
    (((∃ i, i < exPool.keys.length ∧ eligibleKey 5
        (exPool.keys.getD ((exPool.idx + i) % exPool.keys.length) defKeyState) = true) →
      ∃ i0, i0 < exPool.keys.length ∧
        (pick exPool 5).1 = (exPool.idx + i0) % exPool.keys.length ∧
        eligibleKey 5 (exPool.keys.getD ((pick exPool 5).1) defKeyState) = true ∧
        (∀ i2 < i0, eligibleKey 5
          (exPool.keys.getD ((exPool.idx + i2) % exPool.keys.length) defKeyState) = false) ∧
        (pick exPool 5).2 = { exPool with idx := ((pick exPool 5).1 + 1) % exPool.keys.length }) ∧
    ((∀ j, j < exPool.keys.length → eligibleKey 5 (exPool.keys.getD j defKeyState) = false) →
      (pick exPool 5).1 < exPool.keys.length ∧
      (∀ k, k < exPool.keys.length →
        (exPool.keys.getD (pick exPool 5).1 defKeyState).blockedUntil ≤
          (exPool.keys.getD k defKeyState).blockedUntil) ∧
      (∀ k, k < (pick exPool 5).1 →
        (exPool.keys.getD (pick exPool 5).1 defKeyState).blockedUntil <
          (exPool.keys.getD k defKeyState).blockedUntil) ∧
      (pick exPool 5).2 = exPool) ∧
    (exPool.keys.length = 1 → (pick exPool 5).1 = 0)) :=
  ⟨by decide, c1_pick_selection exPool 5 (by decide)⟩

/-! ## Retry-client lemmas -/

theorem getD_set_self (l : List KeyState) (k : Nat) (v : KeyState) (h : k < l.length) :
    (l.set k v).getD k defKeyState = v := by
  induction l generalizing k with
  | nil => simp at h
  | cons a t ih =>
    cases k with
    | zero => simp [List.set, List.getD]
    | succ k2 => simpa [List.set, List.getD] using ih k2 (by simpa using h)

/-- `pick` never invents an index: with a non-empty pool the result is in
range. -/
theorem pick_lt (m : Mgr) (now : ℚ) (hne : m.keys ≠ []) :
    (pick m now).1 < m.keys.length := by
  have hlen : 0 < m.keys.length := List.length_pos.mpr hne
  cases hp : pickScan m.keys m.idx now 0 m.keys.length with
  | some j =>
    obtain ⟨d, _, hj, _, _⟩ := pickScan_some hp
    have : (pick m now).1 = j := by simp [pick, hp]
    rw [this, hj]
    exact Nat.mod_lt _ hlen
  | none =>
    have : (pick m now).1 = bestBlockedIdx m.keys := by simp [pick, hp]
    rw [this]
    exact (bestFold_spec m.keys m.keys.length hlen).1

/-- `pick` only moves the cursor; the per-key states are untouched. -/
theorem pick_keys (m : Mgr) (now : ℚ) : (pick m now).2.keys = m.keys := by
  cases hp : pickScan m.keys m.idx now 0 m.keys.length with
  | some j => simp [pick, hp]
  | none => simp [pick, hp]

/-- Claim C5: on a 429 failure at attempt `t`, the cooldown is
`hint*1000 + 500` when a retry-after hint is present and
`2000 * 2^(t-1)` otherwise; the picked credential is blocked for exactly that
duration (`blockedUntil = now + cooldown` at block time) and its fail count
incremented; when attempts remain the client sleeps the cooldown and
continues with attempt `t+1` (which selects a credential afresh); when the
budget is exhausted the last observed error is propagated. -/
theorem c5_rate_limit_backoff (outcomes : Nat → AttemptOutcome) (msgs : List ChatMsg)
    (tools : Bool) (fuel t : Nat) (mgr : Mgr) (now : ℚ) (c : Nat) (le0 : Option ErrInfo)
    (e : ErrInfo) (hne : mgr.keys ≠ []) (hout : outcomes c = .failure e)
    (hst : e.status = 429) :
    let k := (pick mgr now).1
    let mgr1 := (pick mgr now).2
    let w := waitTime mgr1 k now
    let cooldown : ℚ := match e.retryAfterSecs with
      | some hq => hq * 1000 + 500
      | none => CONFIG_RETRY_BASE_DELAY * 2 ^ (t - 1)
    let mgr2 := blockKey mgr1 k cooldown (now + w)
    let pre := (if 0 < w then [GEvent.slept w] else []) ++
      [GEvent.req ⟨CONFIG_MODEL, msgs, tools, k⟩]
    ((mgr2.keys.getD k defKeyState).blockedUntil = (now + w) + cooldown ∧
     (mgr2.keys.getD k defKeyState).failCount =
       (mgr1.keys.getD k defKeyState).failCount + 1) ∧
    (∀ hq, e.retryAfterSecs = some hq → cooldown = hq * 1000 + 500) ∧
    (e.retryAfterSecs = none → cooldown = 2000 * 2 ^ (t - 1)) ∧
    (t < CONFIG_MAX_RETRIES →
      groqChatGo outcomes msgs tools (fuel + 1) t mgr now c le0 =
        { groqChatGo outcomes msgs tools fuel (t + 1) mgr2 ((now + w) + cooldown)
            (c + 1) (some e) with
          events := pre ++ [GEvent.blocked k cooldown, GEvent.slept cooldown] ++
            (groqChatGo outcomes msgs tools fuel (t + 1) mgr2 ((now + w) + cooldown)
              (c + 1) (some e)).events }) ∧
    (¬ t < CONFIG_MAX_RETRIES →
      groqChatGo outcomes msgs tools (fuel + 1) t mgr now c le0 =
        ⟨.fail (.raw e), mgr2, now + w, c + 1, pre ++ [GEvent.blocked k cooldown]⟩) := by
  intro k mgr1 w cooldown mgr2 pre
  have hk : k < mgr1.keys.length := by
    rw [pick_keys]; exact pick_lt mgr now hne
  refine ⟨?_, ?_, ?_, ?_, ?_⟩
  · constructor
    · show ((mgr1.keys.set k _).getD k defKeyState).blockedUntil = _
      rw [getD_set_self _ _ _ hk]
    · show ((mgr1.keys.set k _).getD k defKeyState).failCount = _
      rw [getD_set_self _ _ _ hk]
  · intro hq hq2; simp [cooldown, hq2]
  · intro hq2; simp [cooldown, hq2, CONFIG_RETRY_BASE_DELAY]
  · intro ht
    rw [groqChatGo]
    simp only [hout, hst]
    norm_num [ht, mgr2, cooldown, pre, w, mgr1, k, List.append_assoc]
  · intro ht
    rw [groqChatGo]
    simp only [hout, hst]
    norm_num [ht, mgr2, cooldown, pre, w, mgr1, k, List.append_assoc]

/-- Witness for C5: first attempt, rate-limited with a 7-second hint, on the
three-credential pool. -/
theorem c5_rate_limit_backoff_witness :
    exPool3.keys ≠ [] ∧ exOut429 0 = .failure exErr429 ∧ exErr429.status = 429 ∧
    (let k := (pick exPool3 0).1
     let mgr1 := (pick exPool3 0).2
     let w := waitTime mgr1 k 0
     let cooldown : ℚ := match exErr429.retryAfterSecs with
       | some hq => hq * 1000 + 500
       | none => CONFIG_RETRY_BASE_DELAY * 2 ^ (1 - 1)
     let mgr2 := blockKey mgr1 k cooldown (0 + w)
     let pre := (if 0 < w then [GEvent.slept w] else []) ++
       [GEvent.req ⟨CONFIG_MODEL, [], true, k⟩]
     ((mgr2.keys.getD k defKeyState).blockedUntil = (0 + w) + cooldown ∧
      (mgr2.keys.getD k defKeyState).failCount =
        (mgr1.keys.getD k defKeyState).failCount + 1) ∧
     (∀ hq, exErr429.retryAfterSecs = some hq → cooldown = hq * 1000 + 500) ∧
     (exErr429.retryAfterSecs = none → cooldown = 2000 * 2 ^ (1 - 1)) ∧
     (1 < CONFIG_MAX_RETRIES →
       groqChatGo exOut429 [] true (2 + 1) 1 exPool3 0 0 none =
         { groqChatGo exOut429 [] true 2 (1 + 1) mgr2 ((0 + w) + cooldown)
             (0 + 1) (some exErr429) with
           events := pre ++ [GEvent.blocked k cooldown, GEvent.slept cooldown] ++
             (groqChatGo exOut429 [] true 2 (1 + 1) mgr2 ((0 + w) + cooldown)
               (0 + 1) (some exErr429)).events }) ∧
     (¬ 1 < CONFIG_MAX_RETRIES →
       groqChatGo exOut429 [] true (2 + 1) 1 exPool3 0 0 none =
         ⟨.fail (.raw exErr429), mgr2, 0 + w, 0 + 1, pre ++ [GEvent.blocked k cooldown]⟩)) :=
  ⟨by decide, by decide, by decide,
    c5_rate_limit_backoff exOut429 [] true 2 1 exPool3 0 0 none exErr429
      (by decide) (by decide) (by decide)⟩

/-- Counterexample to claim C6 as stated: with every attempt failing with
status 400, the turn raises the rephrase-worded error after a single request
(no retry — that half of the claim holds), but the transport handler
delivers the generic failure message to the end user, which contains no
request to rephrase. -/
theorem c6_counterexample :
    (chat id false exOut400 "u" "hello" exState).result =
      .thrown "Invalid request format. Please try rephrasing." ∧
    (chat id false exOut400 "u" "hello" exState).reqs.length = 1 ∧
    botErrorReply "Invalid request format. Please try rephrasing." =
      "Sorry, something went wrong. Please try again in a moment." ∧
    strIncludes "Sorry, something went wrong. Please try again in a moment." "rephrase"
      = false := by
  decide

/-- Claim C6 amended: a 400 failure is never retried — the attempt
immediately raises the rephrase-worded error, whatever the remaining budget —
but the end user receives the generic failure message, because the rethrown
error carries no status (so the fallback guard in `chat` rejects it) and the
transport handler only passes through temporarily-unavailable messages. -/
theorem c6_bad_request_no_retry (outcomes : Nat → AttemptOutcome) (msgs : List ChatMsg)
    (tools : Bool) (fuel t : Nat) (mgr : Mgr) (now : ℚ) (c : Nat) (le0 : Option ErrInfo)
    (e : ErrInfo) (hout : outcomes c = .failure e) (hst : e.status = 400) :
    let k := (pick mgr now).1
    let mgr1 := (pick mgr now).2
    let w := waitTime mgr1 k now
    (groqChatGo outcomes msgs tools (fuel + 1) t mgr now c le0 =
      ⟨.fail .rephrase, mgr1, now + w, c + 1,
        (if 0 < w then [GEvent.slept w] else []) ++
          [GEvent.req ⟨CONFIG_MODEL, msgs, tools, k⟩]⟩) ∧
    errMessageOf .rephrase = "Invalid request format. Please try rephrasing." ∧
    fallbackCond .rephrase = false ∧
    botErrorReply (errMessageOf .rephrase) =
      "Sorry, something went wrong. Please try again in a moment." ∧
    strIncludes (botErrorReply (errMessageOf .rephrase)) "rephrase" = false := by
  intro k mgr1 w
  refine ⟨?_, by decide, by decide, by decide, by decide⟩
  rw [groqChatGo]
  simp only [hout, hst]
  norm_num [w, mgr1, k]

/-- Witness for the amended C6 at the concrete 400 scenario. -/
theorem c6_bad_request_no_retry_witness :
    exOut400 0 = .failure exErr400 ∧ exErr400.status = 400 ∧
    (let k := (pick exPool1 0).1
     let mgr1 := (pick exPool1 0).2
     let w := waitTime mgr1 k 0
     (groqChatGo exOut400 [] true (2 + 1) 1 exPool1 0 0 none =
       ⟨.fail .rephrase, mgr1, 0 + w, 0 + 1,
         (if 0 < w then [GEvent.slept w] else []) ++
           [GEvent.req ⟨CONFIG_MODEL, [], true, k⟩]⟩) ∧
     errMessageOf .rephrase = "Invalid request format. Please try rephrasing." ∧
     fallbackCond .rephrase = false ∧
     botErrorReply (errMessageOf .rephrase) =
       "Sorry, something went wrong. Please try again in a moment." ∧
     strIncludes (botErrorReply (errMessageOf .rephrase)) "rephrase" = false) :=
  ⟨by decide, by decide,
    c6_bad_request_no_retry exOut400 [] true 2 1 exPool1 0 0 none exErr400
      (by decide) (by decide)⟩

/-- Claim C3 (code bug): when the primary call fails across its whole retry
budget (three rate-limited attempts), exactly one fallback completion call is
made with the reduced instruction, the last 5 history turns and no tool
schema, its answer is returned (normalized) as the final answer with no tool
execution, and the answer is pushed to history once — but the fallback
request is issued against `CONFIG.MODEL`, the primary model: `groqChat`
hardcodes the primary model identifier and `CONFIG.FALLBACK_MODEL` is never
used. -/
theorem c3_fallback_model_bug :
    (∀ f : String → String,
      (chat f false exOutFb "u" "hello" exState).result = .reply (f "Recovered")) ∧
    (chat id false exOutFb "u" "hello" exState).groqCalls = 2 ∧
    (chat id false exOutFb "u" "hello" exState).reqs.length = 4 ∧
    ((chat id false exOutFb "u" "hello" exState).reqs.take 3).all
      (fun r => r.withTools && r.model == CONFIG_MODEL) = true ∧
    (chat id false exOutFb "u" "hello" exState).reqs.getD 3 ⟨"", [], true, 0⟩ =
      ⟨CONFIG_MODEL, [⟨"system", some FALLBACK_SYSTEM⟩, ⟨"user", some "hello"⟩],
        false, 0⟩ ∧
    CONFIG_MODEL ≠ CONFIG_FALLBACK_MODEL ∧
    (chat id false exOutFb "u" "hello" exState).rounds = [] ∧
    (chat id false exOutFb "u" "hello" exState).pushes.map
      (fun p => (p.role, p.content)) = [("user", "hello"), ("assistant", "Recovered")] := by
  refine ⟨fun f => rfl, ?_, ?_, ?_, ?_, ?_, ?_, ?_⟩ <;> decide

/-! ## Non-emptiness of tool results -/

theorem str_append_ne_left {a : String} (b : String) (h : a ≠ "") : a ++ b ≠ "" := by
  intro heq
  apply h
  have hd := congrArg String.data heq
  rw [String.data_append] at hd
  rcases List.append_eq_nil.mp hd with ⟨h1, _⟩
  cases a
  subst h1
  rfl

theorem str_append_ne_right {b : String} (a : String) (h : b ≠ "") : a ++ b ≠ "" := by
  intro heq
  apply h
  have hd := congrArg String.data heq
  rw [String.data_append] at hd
  rcases List.append_eq_nil.mp hd with ⟨_, h2⟩
  cases b
  subst h2
  rfl

theorem joinNl_ne_empty : ∀ {l : List String}, l ≠ [] → (∀ x ∈ l, x ≠ "") →
    joinNl l ≠ "" := by
  intro l
  induction l with
  | nil => intro h _; exact absurd rfl h
  | cons a t ih =>
    intro _ hall
    cases t with
    | nil => simpa [joinNl] using hall a (by simp)
    | cons b t2 =>
      show a ++ "\x0a" ++ joinNl (b :: t2) ≠ ""
      exact str_append_ne_left _ (str_append_ne_left _ (hall a (by simp)))


/-! ## Loop lemmas -/

theorem saveMemoriesScan_ne (uid : String) (now : ℚ) :
    ∀ (mems : List (String × String)) (c : MCache),
      ∀ x ∈ (saveMemoriesScan uid now mems c).1, x ≠ "" := by
  intro mems
  induction mems with
  | nil => intro c x hx; simp [saveMemoriesScan] at hx
  | cons p rest ih =>
    intro c x hx
    rw [saveMemoriesScan] at hx
    rcases hv : validateKey p.1 with err | key <;> simp only [hv] at hx
    · rcases hs : saveMemoriesScan uid now rest c with ⟨rs, sv, c1⟩
      simp only [hs, List.mem_cons] at hx
      rcases hx with rfl | hx
      · exact str_append_ne_left _ (str_append_ne_left _ (str_append_ne_left _ (by decide)))
      · have h2 := ih c x
        rw [hs] at h2
        exact h2 hx
    · by_cases he : jsTrim p.2 = ""
      · rw [if_pos he] at hx
        rcases hs : saveMemoriesScan uid now rest c with ⟨rs, sv, c1⟩
        simp only [hs, List.mem_cons] at hx
        rcases hx with rfl | hx
        · exact str_append_ne_left _ (str_append_ne_left _ (by decide))
        · have h2 := ih c x
          rw [hs] at h2
          exact h2 hx
      · rw [if_neg he] at hx
        rcases hd : cacheIsDuplicate c uid key p.2 now with ⟨b, c1⟩
        simp only [hd] at hx
        cases b
        · rcases hs : saveMemoriesScan uid now rest c1 with ⟨rs, sv, c2⟩
          simp only [hs] at hx
          have h2 := ih c1 x
          rw [hs] at h2
          exact h2 hx
        · rcases hs : saveMemoriesScan uid now rest c1 with ⟨rs, sv, c2⟩
          simp only [hs, List.mem_cons] at hx
          rcases hx with rfl | hx
          · exact str_append_ne_left _ (by decide)
          · have h2 := ih c1 x
            rw [hs] at h2
            exact h2 hx

theorem saveMemoriesWrite_ne (uid : String) (now : ℚ) :
    ∀ (toSave : List (String × String)) (c : MCache) (st : Store),
      ∀ x ∈ (saveMemoriesWrite uid now toSave c st).1, x ≠ "" := by
  intro toSave
  induction toSave with
  | nil => intro c st x hx; simp [saveMemoriesWrite] at hx
  | cons p rest ih =>
    intro c st x hx
    rw [saveMemoriesWrite] at hx
    rcases hs : saveMemoriesWrite uid now rest (cacheUpsert c uid p.1 p.2 now)
        (storeSave st uid p.1 p.2) with ⟨rs, c2, st2⟩
    simp only [hs, List.mem_cons] at hx
    rcases hx with rfl | hx
    · exact str_append_ne_left _ (by decide)
    · have h2 := ih (cacheUpsert c uid p.1 p.2 now) (storeSave st uid p.1 p.2) x
      rw [hs] at h2
      exact h2 hx

/-- Every `executeTool` result is a non-empty string. -/
theorem executeTool_ne (inv : ToolInv) (uid : String) (c : MCache) (st : Store)
    (now : ℚ) : (executeTool inv uid c st now).result ≠ "" := by
  cases inv with
  | saveMemory key value =>
    rw [executeTool]
    rcases hv : validateKey key with err | k <;> simp only [hv]
    · exact str_append_ne_left _ (by decide)
    · by_cases he : jsTrim value = ""
      · rw [if_pos he]
        show ("Error: Cannot save empty value" : String) ≠ ""
        decide
      · rw [if_neg he]
        rcases hd : cacheIsDuplicate c uid k value now with ⟨b, c1⟩
        cases b
        · exact str_append_ne_left _ (by decide)
        · exact str_append_ne_left _ (by decide)
  | saveMemories mems =>
    rw [executeTool]
    by_cases hm : mems.isEmpty = true
    · rw [if_pos hm]
      show ("Error: No memories provided" : String) ≠ ""
      decide
    · rw [if_neg hm]
      rcases hs : saveMemoriesScan uid now mems c with ⟨skips, pr⟩
      rcases hpr : pr with ⟨toSave, c1⟩
      subst hpr
      rcases hw : saveMemoriesWrite uid now toSave c1 st with ⟨saved, pw⟩
      rcases hpw : pw with ⟨c2, st1⟩
      subst hpw
      simp only [hs, hw]
      by_cases hl : (skips ++ saved).length > 0
      · rw [if_pos hl]
        apply joinNl_ne_empty
        · intro hnil
          rw [hnil] at hl
          simp at hl
        · intro x hx
          rcases List.mem_append.mp hx with h1 | h2
          · have h3 := saveMemoriesScan_ne uid now mems c x
            rw [hs] at h3
            exact h3 h1
          · have h3 := saveMemoriesWrite_ne uid now toSave c1 st x
            rw [hw] at h3
            exact h3 h2
      · rw [if_neg hl]
        show ("No memories saved" : String) ≠ ""
        decide
  | getMemory keyOpt =>
    rw [executeTool]
    by_cases ht : optTruthy keyOpt = true
    · rw [if_pos ht]
      rcases hg : cacheGet c uid (normalizeKey (keyOpt.getD "")) now with ⟨cached, c1⟩
      simp only [hg]
      by_cases hc2 : optTruthy cached = true
      · rw [if_pos hc2]
        exact str_append_ne_left _ (str_append_ne_right _ (by decide))
      · rw [if_neg hc2]
        rcases hf : storeGet st uid (normalizeKey (keyOpt.getD "")) with _ | f <;>
          simp only [hf]
        · exact str_append_ne_left _ (by decide)
        · exact str_append_ne_left _ (str_append_ne_right _ (by decide))
    · rw [if_neg ht]
      by_cases ha : (storeList st uid).isEmpty = true
      · rw [if_pos ha]
        show ("No memories saved yet." : String) ≠ ""
        decide
      · rw [if_neg ha]
        apply joinNl_ne_empty
        · simpa [List.isEmpty_iff] using ha
        · intro x hx
          obtain ⟨f, _, rfl⟩ := List.mem_map.mp hx
          exact str_append_ne_left _ (str_append_ne_right _ (by decide))
  | searchMemories query =>
    rw [executeTool]
    by_cases hq : jsTrim query = ""
    · rw [if_pos hq]
      show ("Error: Search query cannot be empty" : String) ≠ ""
      decide
    · rw [if_neg hq]
      by_cases hm : (storeSearch st uid query).isEmpty = true
      · rw [if_pos hm]
        exact str_append_ne_left _ (by decide)
      · rw [if_neg hm]
        apply joinNl_ne_empty
        · simpa [List.isEmpty_iff] using hm
        · intro x hx
          obtain ⟨f, _, rfl⟩ := List.mem_map.mp hx
          exact str_append_ne_left _ (str_append_ne_right _ (by decide))
  | deleteMemory key =>
    rw [executeTool]
    rcases hd : storeDelete st uid (normalizeKey key) with ⟨b, st1⟩
    cases b
    · exact str_append_ne_left _ (by decide)
    · exact str_append_ne_left _ (by decide)
  | unknown name =>
    rw [executeTool]
    exact str_append_ne_left _ (by decide)

theorem execCalls_spec (uid : String) :
    ∀ (tcs : List ToolCall) (st : LoopSt),
      (execCalls uid tcs st).1.length = tcs.length ∧
      (∀ x ∈ (execCalls uid tcs st).1, x ≠ "") ∧
      (execCalls uid tcs st).2.groqCalls = st.groqCalls ∧
      (execCalls uid tcs st).2.reqs = st.reqs ∧
      (execCalls uid tcs st).2.rounds = st.rounds ∧
      (execCalls uid tcs st).2.pushes = st.pushes ∧
      (execCalls uid tcs st).2.mgr = st.mgr ∧
      (execCalls uid tcs st).2.now = st.now ∧
      (execCalls uid tcs st).2.ctr = st.ctr ∧
      (execCalls uid tcs st).2.hist = st.hist := by
  intro tcs
  induction tcs with
  | nil =>
    intro st
    simp [execCalls]
  | cons tc rest ih =>
    intro st
    rw [execCalls]
    rcases hc : tc.call with _ | inv <;> simp only []
    · have H := ih { st with
        msgs := st.msgs ++ [⟨"tool", some "Error: invalid arguments format"⟩] }
      refine ⟨by simp [H.1], ?_, H.2.2.1, H.2.2.2.1, H.2.2.2.2.1, H.2.2.2.2.2.1,
        H.2.2.2.2.2.2.1, H.2.2.2.2.2.2.2.1, H.2.2.2.2.2.2.2.2.1, H.2.2.2.2.2.2.2.2.2⟩
      intro x hx
      rcases List.mem_cons.mp hx with rfl | hx2
      · decide
      · exact H.2.1 x hx2
    · have H := ih { st with
        cache := (executeTool inv uid st.cache st.store st.now).cache
        store := (executeTool inv uid st.cache st.store st.now).store
        msgs := st.msgs ++ [⟨"tool", some (executeTool inv uid st.cache st.store st.now).result⟩] }
      refine ⟨by simp [H.1], ?_, H.2.2.1, H.2.2.2.1, H.2.2.2.2.1, H.2.2.2.2.2.1,
        H.2.2.2.2.2.2.1, H.2.2.2.2.2.2.2.1, H.2.2.2.2.2.2.2.2.1, H.2.2.2.2.2.2.2.2.2⟩
      intro x hx
      rcases List.mem_cons.mp hx with rfl | hx2
      · exact executeTool_ne inv uid st.cache st.store st.now
      · exact H.2.1 x hx2

theorem groq_success (outcomes : Nat → AttemptOutcome) (msgs : List ChatMsg) (tools : Bool)
    (fuel t : Nat) (mgr : Mgr) (now : ℚ) (c : Nat) (le0 : Option ErrInfo) (m : ModelMsg)
    (hout : outcomes c = .success m) :
    groqChatGo outcomes msgs tools (fuel + 1) t mgr now c le0 =
      ⟨.ok m, resetFailures (pick mgr now).2 (pick mgr now).1,
        now + waitTime (pick mgr now).2 (pick mgr now).1 now, c + 1,
        (if 0 < waitTime (pick mgr now).2 (pick mgr now).1 now
          then [GEvent.slept (waitTime (pick mgr now).2 (pick mgr now).1 now)] else []) ++
        [GEvent.req ⟨CONFIG_MODEL, msgs, tools, (pick mgr now).1⟩]⟩ := by
  rw [groqChatGo]
  simp only [hout]

theorem groqChat_success (outcomes : Nat → AttemptOutcome) (msgs : List ChatMsg)
    (tools : Bool) (mgr : Mgr) (now : ℚ) (c : Nat) (m : ModelMsg)
    (hout : outcomes c = .success m) :
    groqChat outcomes msgs tools mgr now c =
      ⟨.ok m, resetFailures (pick mgr now).2 (pick mgr now).1,
        now + waitTime (pick mgr now).2 (pick mgr now).1 now, c + 1,
        (if 0 < waitTime (pick mgr now).2 (pick mgr now).1 now
          then [GEvent.slept (waitTime (pick mgr now).2 (pick mgr now).1 now)] else []) ++
        [GEvent.req ⟨CONFIG_MODEL, msgs, tools, (pick mgr now).1⟩]⟩ := by
  show groqChatGo outcomes msgs tools (2 + 1) 1 mgr now c none = _
  exact groq_success outcomes msgs tools 2 1 mgr now c none m hout

theorem requestsOf_sleptReq (p : Prop) [Decidable p] (w : ℚ) (r : Request) :
    requestsOf ((if p then [GEvent.slept w] else []) ++ [GEvent.req r]) = [r] := by
  by_cases hp : p <;> simp [requestsOf, hp]

theorem execCalls_length (uid : String) (tcs : List ToolCall) (st : LoopSt) :
    (execCalls uid tcs st).1.length = tcs.length := (execCalls_spec uid tcs st).1

theorem execCalls_results_ne (uid : String) (tcs : List ToolCall) (st : LoopSt) :
    ∀ x ∈ (execCalls uid tcs st).1, x ≠ "" := (execCalls_spec uid tcs st).2.1

theorem execCalls_groqCalls (uid : String) (tcs : List ToolCall) (st : LoopSt) :
    (execCalls uid tcs st).2.groqCalls = st.groqCalls := (execCalls_spec uid tcs st).2.2.1

theorem execCalls_reqs (uid : String) (tcs : List ToolCall) (st : LoopSt) :
    (execCalls uid tcs st).2.reqs = st.reqs := (execCalls_spec uid tcs st).2.2.2.1

theorem execCalls_rounds (uid : String) (tcs : List ToolCall) (st : LoopSt) :
    (execCalls uid tcs st).2.rounds = st.rounds := (execCalls_spec uid tcs st).2.2.2.2.1

theorem execCalls_pushes (uid : String) (tcs : List ToolCall) (st : LoopSt) :
    (execCalls uid tcs st).2.pushes = st.pushes := (execCalls_spec uid tcs st).2.2.2.2.2.1

theorem execCalls_hist (uid : String) (tcs : List ToolCall) (st : LoopSt) :
    (execCalls uid tcs st).2.hist = st.hist :=
  (execCalls_spec uid tcs st).2.2.2.2.2.2.2.2.2

theorem execCalls_ne_nil (uid : String) (tcs : List ToolCall) (st : LoopSt)
    (h : tcs ≠ []) : (execCalls uid tcs st).1 ≠ [] := by
  intro hnil
  have hl := execCalls_length uid tcs st
  rw [hnil] at hl
  exact h (List.length_eq_zero.mp hl.symm)

theorem chatLoop_allTools (outcomes : Nat → AttemptOutcome) (ms : Nat → ModelMsg)
    (hAll : ∀ i, outcomes i = .success (ms i)) (hCalls : ∀ i, (ms i).toolCalls ≠ [])
    (uid : String) :
    ∀ (fuel iter : Nat) (st : LoopSt), 0 < fuel →
      iter + fuel = CONFIG_MAX_ITERATIONS + 1 →
      ∃ (stf : LoopSt) (rs : List String),
        chatLoop outcomes uid fuel iter st = (.budget (joinNl rs), stf) ∧
        rs ≠ [] ∧ (∀ x ∈ rs, x ≠ "") ∧
        stf.groqCalls = st.groqCalls + fuel ∧
        stf.reqs.length = st.reqs.length + fuel ∧
        stf.rounds.length = st.rounds.length + fuel ∧
        stf.rounds.getLast? = some rs ∧
        stf.pushes = st.pushes := by
  intro fuel
  induction fuel with
  | zero => intro iter st h; exact absurd h (lt_irrefl 0)
  | succ fuel ih =>
    intro iter st _ hsum
    have hne : (ms st.ctr).toolCalls.isEmpty = false := by
      cases h2 : (ms st.ctr).toolCalls with
      | nil => exact absurd h2 (hCalls st.ctr)
      | cons a t => rfl
    rw [chatLoop,
      groqChat_success outcomes st.msgs true st.mgr st.now st.ctr (ms st.ctr) (hAll st.ctr)]
    simp only [hne, Bool.false_eq_true, if_false]
    rcases Nat.eq_zero_or_pos fuel with h0 | hpos
    · subst h0
      have hiter : iter = CONFIG_MAX_ITERATIONS := by
        have h5 : CONFIG_MAX_ITERATIONS = 5 := rfl
        omega
      rw [if_pos (And.intro hiter (by
        rw [gt_iff_lt, execCalls_length]
        exact List.length_pos.mpr (hCalls st.ctr)))]
      refine ⟨_, _, rfl, execCalls_ne_nil uid _ _ (hCalls st.ctr),
        execCalls_results_ne uid _ _, ?_, ?_, ?_, ?_, ?_⟩
      · simp [execCalls_groqCalls]
      · simp [execCalls_reqs, requestsOf_sleptReq]
      · simp [execCalls_rounds]
      · simp [List.getLast?_concat]
      · simp [execCalls_pushes]
    · rw [if_neg (by
        rintro ⟨h5, -⟩
        have h6 : CONFIG_MAX_ITERATIONS = 5 := rfl
        omega)]
      obtain ⟨stf, rs, heq, hrs, hrs2, hg, hr, hro, hlast, hpush⟩ :=
        ih (iter + 1) _ hpos (by omega)
      refine ⟨stf, rs, heq, hrs, hrs2, ?_, ?_, ?_, hlast, ?_⟩
      · rw [hg]
        simp [execCalls_groqCalls]
        omega
      · rw [hr]
        simp [execCalls_reqs, requestsOf_sleptReq]
        omega
      · rw [hro]
        simp [execCalls_rounds]
        omega
      · rw [hpush]
        simp [execCalls_pushes]

/-- Claim C2: if the model returns tool calls on every round, the loop makes
exactly `MAX_ITERATIONS = 5` model calls (one provider request each, and no
further call to summarize) and terminates with the round budget exhausted;
the final answer is the newline-joined concatenation of the fifth round's
tool results, markdown-normalized on return. -/
theorem c2_round_budget (stripMD : String → String) (doPrune : Bool)
    (outcomes : Nat → AttemptOutcome) (ms : Nat → ModelMsg)
    (hAll : ∀ i, outcomes i = .success (ms i)) (hCalls : ∀ i, (ms i).toolCalls ≠ [])
    (uid userMessage : String) (s : SysState) :
    ∃ rs : List String,
      rs ≠ [] ∧
      (chat stripMD doPrune outcomes uid userMessage s).groqCalls = 5 ∧
      (chat stripMD doPrune outcomes uid userMessage s).reqs.length = 5 ∧
      (chat stripMD doPrune outcomes uid userMessage s).rounds.length = 5 ∧
      (chat stripMD doPrune outcomes uid userMessage s).rounds.getLast? = some rs ∧
      (chat stripMD doPrune outcomes uid userMessage s).exit = .budget (joinNl rs) ∧
      (chat stripMD doPrune outcomes uid userMessage s).finalAnswer = some (joinNl rs) ∧
      (chat stripMD doPrune outcomes uid userMessage s).result =
        .reply (stripMD (joinNl rs)) := by
  obtain ⟨stf, rs, heq, hrs, hrs2, hg, hr, hro, hlast, hpush⟩ :=
    chatLoop_allTools outcomes ms hAll hCalls uid CONFIG_MAX_ITERATIONS 1
      (chatInit doPrune uid userMessage s) (by norm_num [CONFIG_MAX_ITERATIONS]) rfl
  have hjoin : joinNl rs ≠ "" := joinNl_ne_empty hrs hrs2
  refine ⟨rs, hrs, ?_⟩
  rw [chat]
  simp only [heq]
  rw [if_neg hjoin]
  refine ⟨?_, ?_, ?_, hlast, trivial, rfl, rfl⟩
  · rw [hg]; rfl
  · rw [hr]; rfl
  · rw [hro]; rfl

/-- Witness for C2: the model issues one `get_memory` call every round. -/
theorem c2_round_budget_witness :
    (∀ i, exOutTools i = .success exToolMsg) ∧
    (∀ _ : Nat, exToolMsg.toolCalls ≠ []) ∧
    (∃ rs : List String,
      rs ≠ [] ∧
      (chat id false exOutTools "u" "hi" exState).groqCalls = 5 ∧
      (chat id false exOutTools "u" "hi" exState).reqs.length = 5 ∧
      (chat id false exOutTools "u" "hi" exState).rounds.length = 5 ∧
      (chat id false exOutTools "u" "hi" exState).rounds.getLast? = some rs ∧
      (chat id false exOutTools "u" "hi" exState).exit = .budget (joinNl rs) ∧
      (chat id false exOutTools "u" "hi" exState).finalAnswer = some (joinNl rs) ∧
      (chat id false exOutTools "u" "hi" exState).result = .reply (id (joinNl rs))) :=
  ⟨fun _ => rfl, fun _ => by decide,
    c2_round_budget id false exOutTools (fun _ => exToolMsg) (fun _ => rfl)
      (fun _ => by show exToolMsg.toolCalls ≠ []; decide) "u" "hi" exState⟩

/-! ## Cache lemmas -/

theorem jsGet_jsSet_self {α : Type} (m : List (String × α)) (k : String) (v : α) :
    jsGet (jsSet m k v) k = some v := by
  induction m with
  | nil => simp [jsGet, jsSet, List.find?]
  | cons p rest ih =>
    rw [jsSet]
    by_cases hp : p.1 == k
    · rw [if_pos hp]
      simp [jsGet, List.find?]
    · rw [if_neg hp]
      simp only [jsGet, List.find?, hp] at ih ⊢
      exact ih

theorem jsGet_none_of_not_mem {α : Type} (m : List (String × α)) (k : String)
    (h : k ∉ m.map Prod.fst) : jsGet m k = none := by
  induction m with
  | nil => simp [jsGet, List.find?]
  | cons p rest ih =>
    simp only [List.map_cons, List.mem_cons] at h
    push_neg at h
    have hp : (p.1 == k) = false := by
      simp only [beq_eq_false_iff_ne, ne_eq]
      exact fun h2 => h.1 (h2.symm)
    simp only [jsGet, List.find?, hp] at ih ⊢
    exact ih h.2

theorem jsGet_jsDel_self {α : Type} (m : List (String × α)) (k : String)
    (hnd : (m.map Prod.fst).Nodup) : jsGet (jsDel m k) k = none := by
  induction m with
  | nil => simp [jsGet, jsDel, List.find?]
  | cons p rest ih =>
    simp only [List.map_cons, List.nodup_cons] at hnd
    rw [jsDel]
    by_cases hp : p.1 == k
    · rw [if_pos hp]
      apply jsGet_none_of_not_mem
      have : p.1 = k := by simpa using hp
      rw [← this]
      exact hnd.1
    · rw [if_neg hp]
      have hpf : (p.1 == k) = false := by simpa using hp
      simp only [jsGet, List.find?, hpf]
      have := ih hnd.2
      simpa [jsGet] using this

/-- Unfolding of a fresh `_entry` hit. -/
theorem cacheEntry_some {c : MCache} {uid : String} {now : ℚ} {e : CEntry}
    (h : (cacheEntry c uid now).1 = some e) :
    jsGet c.entries uid = some e ∧ now - e.ts ≤ CONFIG_CACHE_TTL ∧
      (cacheEntry c uid now).2 = c := by
  rw [cacheEntry] at h ⊢
  rcases hg : jsGet c.entries uid with _ | e0 <;> simp only [hg] at h ⊢
  · exact absurd h (by simp)
  · by_cases hexp : now - e0.ts > CONFIG_CACHE_TTL
    · rw [if_pos hexp] at h
      exact absurd h (by simp)
    · rw [if_neg hexp] at h ⊢
      obtain rfl : e0 = e := by simpa using h
      exact ⟨rfl, le_of_not_lt hexp, rfl⟩

/-- Counterexample to claim C8 as stated: on a cold cache, `upsert` of a
key/value followed by `isDuplicate` of exactly that key/value returns false,
because `upsert` refuses to create a missing entry. -/
theorem c8_counterexample :
    (cacheIsDuplicate (cacheUpsert ⟨[]⟩ "u" "color" "blue" 0) "u" "color" "blue" 0).1
      = false ∧
    cacheUpsert (⟨[]⟩ : MCache) "u" "color" "blue" 0 = ⟨[]⟩ := by
  decide

/-- Claim C8 amended: `isDuplicate(uid, key, value)` returns true iff the
per-user entry is present and unexpired and maps `key` to exactly `value`;
it returns true right after an `upsert` of that key/value provided a fresh
entry existed at upsert time (otherwise the upsert is a no-op on the
mapping); and a `remove` of the key, an `invalidate` of the user, or TTL
expiry each make it false. -/
theorem c8_isDuplicate_spec (c : MCache) (uid key value : String) (now : ℚ) :
    ((cacheIsDuplicate c uid key value now).1 = true ↔
      ∃ e, jsGet c.entries uid = some e ∧ now - e.ts ≤ CONFIG_CACHE_TTL ∧
        jsGet e.map key = some value) ∧
    (∀ e, (cacheEntry c uid now).1 = some e →
      (cacheIsDuplicate (cacheUpsert c uid key value now) uid key value now).1 = true) ∧
    ((c.entries.map Prod.fst).Nodup →
      (∀ e, jsGet c.entries uid = some e → (e.map.map Prod.fst).Nodup) →
      (cacheIsDuplicate (cacheRemove c uid key now) uid key value now).1 = false) ∧
    ((c.entries.map Prod.fst).Nodup →
      (cacheIsDuplicate (cacheInvalidate c uid) uid key value now).1 = false) ∧
    (∀ e now2, jsGet c.entries uid = some e → now2 - e.ts > CONFIG_CACHE_TTL →
      (cacheIsDuplicate c uid key value now2).1 = false) := by
  have httl : ¬ now - (now : ℚ) > CONFIG_CACHE_TTL := by
    norm_num [CONFIG_CACHE_TTL]
  refine ⟨?_, ?_, ?_, ?_, ?_⟩
  · rcases hg : jsGet c.entries uid with _ | e0
    · simp only [cacheIsDuplicate, cacheEntry, hg]
      simp only [Bool.false_eq_true, false_iff]
      rintro ⟨e, he, -⟩
      simp [hg] at he
    · by_cases hexp : now - e0.ts > CONFIG_CACHE_TTL
      · simp only [cacheIsDuplicate, cacheEntry, hg, if_pos hexp]
        simp only [Bool.false_eq_true, false_iff]
        rintro ⟨e, he, hfresh, -⟩
        obtain rfl : e0 = e := by simpa using he
        exact absurd hexp (not_lt.mpr hfresh)
      · simp only [cacheIsDuplicate, cacheEntry, hg, if_neg hexp]
        constructor
        · intro hb
          exact ⟨e0, rfl, le_of_not_lt hexp, by simpa using hb⟩
        · rintro ⟨e, he, -, hv⟩
          obtain rfl : e0 = e := by simpa using he
          simpa using hv
  · intro e he
    obtain ⟨hg, hfresh, -⟩ := cacheEntry_some he
    have hexp : ¬ now - e.ts > CONFIG_CACHE_TTL := not_lt.mpr hfresh
    simp only [cacheUpsert, cacheIsDuplicate, cacheEntry, hg, if_neg hexp,
      jsGet_jsSet_self, if_neg httl]
    simp [jsGet_jsSet_self]
  · intro hnd hnd2
    rcases hg : jsGet c.entries uid with _ | e0
    · simp only [cacheRemove, cacheIsDuplicate, cacheEntry, hg]
    · by_cases hexp : now - e0.ts > CONFIG_CACHE_TTL
      · simp only [cacheRemove, cacheIsDuplicate, cacheEntry, hg, if_pos hexp,
          jsGet_jsDel_self c.entries uid hnd]
      · have hndm := hnd2 e0 hg
        simp only [cacheRemove, cacheIsDuplicate, cacheEntry, hg, if_neg hexp,
          jsGet_jsSet_self]
        simp [hexp, jsGet_jsDel_self e0.map key hndm]
  · intro hnd
    simp only [cacheInvalidate, cacheIsDuplicate, cacheEntry,
      jsGet_jsDel_self c.entries uid hnd]
  · intro e now2 hg hexp
    simp only [cacheIsDuplicate, cacheEntry, hg, if_pos hexp]

/-- Witness for the amended C8 at a concrete fresh cache. -/
theorem c8_isDuplicate_spec_witness :
    ((cacheIsDuplicate exCacheFresh "u" "color" "blue" 0).1 = true ↔
      ∃ e, jsGet exCacheFresh.entries "u" = some e ∧ 0 - e.ts ≤ CONFIG_CACHE_TTL ∧
        jsGet e.map "color" = some "blue") ∧
    (∀ e, (cacheEntry exCacheFresh "u" 0).1 = some e →
      (cacheIsDuplicate (cacheUpsert exCacheFresh "u" "color" "blue" 0)
        "u" "color" "blue" 0).1 = true) ∧
    ((exCacheFresh.entries.map Prod.fst).Nodup →
      (∀ e, jsGet exCacheFresh.entries "u" = some e → (e.map.map Prod.fst).Nodup) →
      (cacheIsDuplicate (cacheRemove exCacheFresh "u" "color" 0)
        "u" "color" "blue" 0).1 = false) ∧
    ((exCacheFresh.entries.map Prod.fst).Nodup →
      (cacheIsDuplicate (cacheInvalidate exCacheFresh "u") "u" "color" "blue" 0).1
        = false) ∧
    (∀ e now2, jsGet exCacheFresh.entries "u" = some e →
      now2 - e.ts > CONFIG_CACHE_TTL →
      (cacheIsDuplicate exCacheFresh "u" "color" "blue" now2).1 = false) :=
  c8_isDuplicate_spec exCacheFresh "u" "color" "blue" 0

/-- Counterexample to claim C7's instance: the key `"Token "` does NOT
normalize to `"token"` (the trailing space becomes a trailing underscore)
and `"token"` is not on the denylist anyway, so that save validates and
writes through to the store. -/
theorem c7_counterexample :
    normalizeKey "Token " = "token_" ∧
    genericKeys.contains "token" = false ∧
    validateKey "Token " = .ok "token_" ∧
    (executeTool (.saveMemory "Token " "v") "u" ⟨[]⟩ ⟨[]⟩ 0).result = "Saved: token_" ∧
    (executeTool (.saveMemory "Token " "v") "u" ⟨[]⟩ ⟨[]⟩ 0).writes = 1 ∧
    (executeTool (.saveMemory "Token " "v") "u" ⟨[]⟩ ⟨[]⟩ 0).store =
      ⟨[⟨"u", "token_", "v"⟩]⟩ := by
  decide

/-- Claim C7 amended: a save-one-fact call whose key does normalize to a
denylisted generic term is rejected with the validation error as the tool
result, and neither the store nor the cache is touched (no reads, no
writes).  (`"Token "` is not such a key: it normalizes to `"token_"`, and
`"token"` is not on the denylist.) -/
theorem c7_generic_key_rejected (key value uid : String) (c : MCache) (st : Store)
    (now : ℚ) (h : normalizeKey key ∈ genericKeys) :
    executeTool (.saveMemory key value) uid c st now =
      ⟨"Error: " ++ ("Key \"" ++ normalizeKey key ++
        "\" is too generic. Use descriptive names like \"github_token\" or \"mom_birthday\""),
        c, st, 0, 0⟩ := by
  have hv : validateKey key = .invalid ("Key \"" ++ normalizeKey key ++
      "\" is too generic. Use descriptive names like \"github_token\" or \"mom_birthday\"") := by
    simp only [genericKeys, List.mem_cons, List.not_mem_nil, or_false] at h
    rcases h with h|h|h|h|h|h|h|h|h|h|h|h|h|h|h <;> rw [validateKey, h] <;> decide
  rw [executeTool]
  simp only [hv]

/-- Witness for the amended C7 at the denylisted key `"Note"`. -/
theorem c7_generic_key_rejected_witness :
    normalizeKey "Note" ∈ genericKeys ∧
    executeTool (.saveMemory "Note" "v") "u" ⟨[]⟩ ⟨[]⟩ 0 =
      ⟨"Error: " ++ ("Key \"" ++ normalizeKey "Note" ++
        "\" is too generic. Use descriptive names like \"github_token\" or \"mom_birthday\""),
        ⟨[]⟩, ⟨[]⟩, 0, 0⟩ :=
  ⟨by decide, c7_generic_key_rejected "Note" "v" "u" ⟨[]⟩ ⟨[]⟩ 0 (by decide)⟩

/-- Claim C9: with a fresh per-user cache entry present, a save of
`github_token = ghp_abc123xyz` followed immediately by a `get_memory` of
`github_token` returns exactly that value served from the cache, with zero
external-store reads in the get, and no state change by the get; and the
noted proviso holds: an upsert against a missing (or expired) per-user entry
does not create one. -/
theorem c9_save_then_get_cached (uid : String) (c : MCache) (st : Store) (now : ℚ)
    (e : CEntry) (hfresh : (cacheEntry c uid now).1 = some e) :
    ((executeTool (.getMemory (some "github_token")) uid
        (executeTool (.saveMemory "github_token" "ghp_abc123xyz") uid c st now).cache
        (executeTool (.saveMemory "github_token" "ghp_abc123xyz") uid c st now).store
        now).result = "github_token: ghp_abc123xyz" ∧
     (executeTool (.getMemory (some "github_token")) uid
        (executeTool (.saveMemory "github_token" "ghp_abc123xyz") uid c st now).cache
        (executeTool (.saveMemory "github_token" "ghp_abc123xyz") uid c st now).store
        now).reads = 0 ∧
     (executeTool (.getMemory (some "github_token")) uid
        (executeTool (.saveMemory "github_token" "ghp_abc123xyz") uid c st now).cache
        (executeTool (.saveMemory "github_token" "ghp_abc123xyz") uid c st now).store
        now).cache =
       (executeTool (.saveMemory "github_token" "ghp_abc123xyz") uid c st now).cache ∧
     (executeTool (.getMemory (some "github_token")) uid
        (executeTool (.saveMemory "github_token" "ghp_abc123xyz") uid c st now).cache
        (executeTool (.saveMemory "github_token" "ghp_abc123xyz") uid c st now).store
        now).store =
       (executeTool (.saveMemory "github_token" "ghp_abc123xyz") uid c st now).store) ∧
    (∀ c2 : MCache, (c2.entries.map Prod.fst).Nodup →
      (cacheGetAll c2 uid now).1 = none →
      (cacheGetAll (cacheUpsert c2 uid "github_token" "ghp_abc123xyz" now) uid now).1
        = none) := by
  have httl : ¬ now - (now : ℚ) > CONFIG_CACHE_TTL := by
    norm_num [CONFIG_CACHE_TTL]
  obtain ⟨hg, hfle, -⟩ := cacheEntry_some hfresh
  have hexp : ¬ now - e.ts > CONFIG_CACHE_TTL := not_lt.mpr hfle
  have hv : validateKey "github_token" = .ok "github_token" := by decide
  constructor
  · cases hB : jsGet e.map "github_token" == some "ghp_abc123xyz" with
    | true =>
      have hdup : cacheIsDuplicate c uid "github_token" "ghp_abc123xyz" now
          = (true, c) := by
        rw [cacheIsDuplicate, cacheEntry]
        simp only [hg]
        rw [if_neg hexp]
        show (jsGet e.map "github_token" == some "ghp_abc123xyz", c) = (true, c)
        rw [hB]
      have h1 : executeTool (.saveMemory "github_token" "ghp_abc123xyz") uid c st now =
          ⟨"Already saved: " ++ "github_token", c, st, 0, 0⟩ := by
        rw [executeTool]
        simp only [hv]
        rw [if_neg (by decide : ¬ jsTrim "ghp_abc123xyz" = "")]
        simp only [hdup]
      have hcg : cacheGet c uid (normalizeKey ((some "github_token").getD "")) now =
          (some "ghp_abc123xyz", c) := by
        rw [cacheGet, cacheEntry]
        simp only [hg]
        rw [if_neg hexp]
        show (jsGet e.map (normalizeKey ((some "github_token").getD "")), c) =
          (some "ghp_abc123xyz", c)
        have hnk : normalizeKey ((some "github_token").getD "") = "github_token" := by
          decide
        rw [hnk, eq_of_beq hB]
      have h2 : executeTool (.getMemory (some "github_token")) uid c st now =
          ⟨"github_token: ghp_abc123xyz", c, st, 0, 0⟩ := by
        rw [executeTool]
        rw [if_pos (by decide : optTruthy (some "github_token") = true)]
        simp only [hcg]
        rw [if_pos (by decide : optTruthy (some "ghp_abc123xyz") = true)]
        have hstr : normalizeKey ((some "github_token").getD "") ++ ": " ++
            (some "ghp_abc123xyz").getD "" = "github_token: ghp_abc123xyz" := by decide
        rw [hstr]
      simp only [h1, h2]
      simp
    | false =>
      have hdup : cacheIsDuplicate c uid "github_token" "ghp_abc123xyz" now
          = (false, c) := by
        rw [cacheIsDuplicate, cacheEntry]
        simp only [hg]
        rw [if_neg hexp]
        show (jsGet e.map "github_token" == some "ghp_abc123xyz", c) = (false, c)
        rw [hB]
      have h1 : executeTool (.saveMemory "github_token" "ghp_abc123xyz") uid c st now =
          ⟨"Saved: " ++ "github_token",
            cacheUpsert c uid "github_token" "ghp_abc123xyz" now,
            storeSave st uid "github_token" "ghp_abc123xyz", 0, 1⟩ := by
        rw [executeTool]
        simp only [hv]
        rw [if_neg (by decide : ¬ jsTrim "ghp_abc123xyz" = "")]
        simp only [hdup]
      have hup : cacheUpsert c uid "github_token" "ghp_abc123xyz" now =
          ⟨jsSet c.entries uid ⟨jsSet e.map "github_token" "ghp_abc123xyz", now⟩⟩ := by
        rw [cacheUpsert, cacheEntry]
        simp only [hg]
        rw [if_neg hexp]
      have hcg : cacheGet (cacheUpsert c uid "github_token" "ghp_abc123xyz" now) uid
          (normalizeKey ((some "github_token").getD "")) now =
          (some "ghp_abc123xyz",
            cacheUpsert c uid "github_token" "ghp_abc123xyz" now) := by
        have hnk : normalizeKey ((some "github_token").getD "") = "github_token" := by
          decide
        rw [hnk, hup]
        simp only [cacheGet, cacheEntry, jsGet_jsSet_self, if_neg httl]
      have h2 : executeTool (.getMemory (some "github_token")) uid
          (cacheUpsert c uid "github_token" "ghp_abc123xyz" now)
          (storeSave st uid "github_token" "ghp_abc123xyz") now =
          ⟨"github_token: ghp_abc123xyz",
            cacheUpsert c uid "github_token" "ghp_abc123xyz" now,
            storeSave st uid "github_token" "ghp_abc123xyz", 0, 0⟩ := by
        rw [executeTool]
        rw [if_pos (by decide : optTruthy (some "github_token") = true)]
        simp only [hcg]
        rw [if_pos (by decide : optTruthy (some "ghp_abc123xyz") = true)]
        have hstr : normalizeKey ((some "github_token").getD "") ++ ": " ++
            (some "ghp_abc123xyz").getD "" = "github_token: ghp_abc123xyz" := by decide
        rw [hstr]
      simp only [h1, h2]
      simp
  · intro c2 hnd hnone
    rw [cacheGetAll] at hnone
    rcases hg2 : jsGet c2.entries uid with _ | e2
    · have hce : cacheEntry c2 uid now = (none, c2) := by
        rw [cacheEntry, hg2]
      rw [cacheUpsert, hce]
      show (cacheGetAll c2 uid now).1 = none
      rw [cacheGetAll]
      exact hnone
    · by_cases hexp2 : now - e2.ts > CONFIG_CACHE_TTL
      · have hce : cacheEntry c2 uid now = (none, ⟨jsDel c2.entries uid⟩) := by
          rw [cacheEntry]
          simp only [hg2]
          show (if now - e2.ts > CONFIG_CACHE_TTL then (none, (⟨jsDel c2.entries uid⟩ : MCache))
            else (some e2, c2)) = (none, (⟨jsDel c2.entries uid⟩ : MCache))
          rw [if_pos hexp2]
        rw [cacheUpsert, hce]
        show (cacheGetAll (⟨jsDel c2.entries uid⟩ : MCache) uid now).1 = none
        simp only [cacheGetAll, cacheEntry, jsGet_jsDel_self c2.entries uid hnd]
      · have hce : cacheEntry c2 uid now = (some e2, c2) := by
          rw [cacheEntry]
          simp only [hg2]
          show (if now - e2.ts > CONFIG_CACHE_TTL then (none, (⟨jsDel c2.entries uid⟩ : MCache))
            else (some e2, c2)) = (some e2, c2)
          rw [if_neg hexp2]
        rw [hce] at hnone
        simp at hnone

/-- Witness for C9 at a concrete fresh cache entry. -/
theorem c9_save_then_get_cached_witness :
    (cacheEntry exCacheFresh "u" 0).1 = some ⟨[("color", "blue")], 0⟩ ∧
    (((executeTool (.getMemory (some "github_token")) "u"
        (executeTool (.saveMemory "github_token" "ghp_abc123xyz") "u" exCacheFresh ⟨[]⟩ 0).cache
        (executeTool (.saveMemory "github_token" "ghp_abc123xyz") "u" exCacheFresh ⟨[]⟩ 0).store
        0).result = "github_token: ghp_abc123xyz" ∧
     (executeTool (.getMemory (some "github_token")) "u"
        (executeTool (.saveMemory "github_token" "ghp_abc123xyz") "u" exCacheFresh ⟨[]⟩ 0).cache
        (executeTool (.saveMemory "github_token" "ghp_abc123xyz") "u" exCacheFresh ⟨[]⟩ 0).store
        0).reads = 0 ∧
     (executeTool (.getMemory (some "github_token")) "u"
        (executeTool (.saveMemory "github_token" "ghp_abc123xyz") "u" exCacheFresh ⟨[]⟩ 0).cache
        (executeTool (.saveMemory "github_token" "ghp_abc123xyz") "u" exCacheFresh ⟨[]⟩ 0).store
        0).cache =
       (executeTool (.saveMemory "github_token" "ghp_abc123xyz") "u" exCacheFresh ⟨[]⟩ 0).cache ∧
     (executeTool (.getMemory (some "github_token")) "u"
        (executeTool (.saveMemory "github_token" "ghp_abc123xyz") "u" exCacheFresh ⟨[]⟩ 0).cache
        (executeTool (.saveMemory "github_token" "ghp_abc123xyz") "u" exCacheFresh ⟨[]⟩ 0).store
        0).store =
       (executeTool (.saveMemory "github_token" "ghp_abc123xyz") "u" exCacheFresh ⟨[]⟩ 0).store) ∧
    (∀ c2 : MCache, (c2.entries.map Prod.fst).Nodup →
      (cacheGetAll c2 "u" 0).1 = none →
      (cacheGetAll (cacheUpsert c2 "u" "github_token" "ghp_abc123xyz" 0) "u" 0).1
        = none)) :=
  ⟨by decide,
    c9_save_then_get_cached "u" exCacheFresh ⟨[]⟩ 0 ⟨[("color", "blue")], 0⟩ (by decide)⟩

/-! ## Final-answer history pushes (C10) -/

theorem assistContents_nil : assistContents [] = [] := rfl

theorem assistContents_cons_user (um : String) (ts : ℚ) (l : List HMsg) :
    assistContents (⟨"user", um, ts⟩ :: l) = assistContents l := rfl

theorem assistContents_cons_assistant (v : String) (ts : ℚ) (l : List HMsg) :
    assistContents (⟨"assistant", v, ts⟩ :: l) = v :: assistContents l := rfl

/-- Shape of the fallback branch: it exits with `fbReturned` and one extra
assistant push, or with `thrownErr` and no push. -/
theorem chatFallback_shape (outcomes : Nat → AttemptOutcome) (st1 : LoopSt) :
    (∀ txt, (chatFallback outcomes st1).1 = ChatExit.fbReturned txt →
      ∃ ts, (chatFallback outcomes st1).2.pushes = st1.pushes ++ [⟨"assistant", txt, ts⟩]) ∧
    (∀ m, (chatFallback outcomes st1).1 = ChatExit.thrownErr m →
      (chatFallback outcomes st1).2.pushes = st1.pushes) ∧
    (∀ r, (chatFallback outcomes st1).1 ≠ ChatExit.plainText r) ∧
    (∀ j, (chatFallback outcomes st1).1 ≠ ChatExit.budget j) ∧
    (chatFallback outcomes st1).1 ≠ ChatExit.fellThrough := by
  rcases hg : groqChat outcomes (fbMsgsOf st1) false st1.mgr st1.now st1.ctr
    with ⟨res2, mg, ng, cg, eg⟩
  cases res2 with
  | ok m =>
    simp only [chatFallback, hg]
    refine ⟨?_, ?_, ?_, ?_, ?_⟩
    · intro txt h
      injection h with h1
      exact ⟨ng, by rw [h1]⟩
    · intro m2 h
      exact ChatExit.noConfusion h
    · intro r h
      exact ChatExit.noConfusion h
    · intro j h
      exact ChatExit.noConfusion h
    · intro h
      exact ChatExit.noConfusion h
  | fail e =>
    simp only [chatFallback, hg]
    refine ⟨?_, ?_, ?_, ?_, ?_⟩
    · intro txt h
      exact ChatExit.noConfusion h
    · intro m2 h
      trivial
    · intro r h
      exact ChatExit.noConfusion h
    · intro j h
      exact ChatExit.noConfusion h
    · intro h
      exact ChatExit.noConfusion h

/-- How each exit of the iteration loop changes the per-user history pushes:
a plain-text exit pushes the nonempty reply once, a fallback return pushes
its text once, and the budget, thrown-error and fell-through exits push
nothing. -/
theorem chatLoop_pushes (outcomes : Nat → AttemptOutcome) (uid : String) :
    ∀ (fuel iter : Nat) (st : LoopSt),
      (∀ r, (chatLoop outcomes uid fuel iter st).1 = ChatExit.plainText r →
        r ≠ "" ∧ ∃ ts, (chatLoop outcomes uid fuel iter st).2.pushes
          = st.pushes ++ [⟨"assistant", r, ts⟩]) ∧
      (∀ j, (chatLoop outcomes uid fuel iter st).1 = ChatExit.budget j →
        (chatLoop outcomes uid fuel iter st).2.pushes = st.pushes) ∧
      (∀ txt, (chatLoop outcomes uid fuel iter st).1 = ChatExit.fbReturned txt →
        ∃ ts, (chatLoop outcomes uid fuel iter st).2.pushes
          = st.pushes ++ [⟨"assistant", txt, ts⟩]) ∧
      (∀ m, (chatLoop outcomes uid fuel iter st).1 = ChatExit.thrownErr m →
        (chatLoop outcomes uid fuel iter st).2.pushes = st.pushes) ∧
      ((chatLoop outcomes uid fuel iter st).1 = ChatExit.fellThrough →
        (chatLoop outcomes uid fuel iter st).2.pushes = st.pushes) := by
  intro fuel
  induction fuel with
  | zero =>
    intro iter st
    simp only [chatLoop]
    refine ⟨?_, ?_, ?_, ?_, ?_⟩
    · intro r h
      exact ChatExit.noConfusion h
    · intro j h
      exact ChatExit.noConfusion h
    · intro txt h
      exact ChatExit.noConfusion h
    · intro m h
      exact ChatExit.noConfusion h
    · intro h
      trivial
  | succ fuel ih =>
    intro iter st
    rcases hg : groqChat outcomes st.msgs true st.mgr st.now st.ctr
      with ⟨res, mg, ng, cg, eg⟩
    cases res with
    | fail e =>
      rw [chatLoop]
      simp only [hg]
      by_cases hfb : fallbackCond e = true
      · rw [if_pos hfb]
        have hC := chatFallback_shape outcomes
          { st with
            mgr := mg
            now := ng
            ctr := cg
            groqCalls := st.groqCalls + 1
            reqs := st.reqs ++ requestsOf eg }
        exact ⟨fun r h => absurd h (hC.2.2.1 r),
          fun j h => absurd h (hC.2.2.2.1 j),
          fun txt h => hC.1 txt h,
          fun m h => hC.2.1 m h,
          fun h => absurd h hC.2.2.2.2⟩
      · rw [if_neg hfb]
        refine ⟨?_, ?_, ?_, ?_, ?_⟩
        · intro r h
          exact ChatExit.noConfusion h
        · intro j h
          exact ChatExit.noConfusion h
        · intro txt h
          exact ChatExit.noConfusion h
        · intro m h
          trivial
        · intro h
          exact ChatExit.noConfusion h
    | ok m =>
      rw [chatLoop]
      simp only [hg]
      by_cases hemp : m.toolCalls.isEmpty = true
      · rw [if_pos hemp]
        rcases hmc : m.content with _ | sCont
        · simp only [hmc]
          refine ⟨?_, ?_, ?_, ?_, ?_⟩
          · intro r h
            injection h with h1
            subst h1
            exact ⟨by decide, ng, rfl⟩
          · intro j h
            exact ChatExit.noConfusion h
          · intro txt h
            exact ChatExit.noConfusion h
          · intro m2 h
            exact ChatExit.noConfusion h
          · intro h
            exact ChatExit.noConfusion h
        · by_cases hsc : sCont = ""
          · simp only [hmc]
            rw [if_pos hsc]
            refine ⟨?_, ?_, ?_, ?_, ?_⟩
            · intro r h
              injection h with h1
              subst h1
              exact ⟨by decide, ng, rfl⟩
            · intro j h
              exact ChatExit.noConfusion h
            · intro txt h
              exact ChatExit.noConfusion h
            · intro m2 h
              exact ChatExit.noConfusion h
            · intro h
              exact ChatExit.noConfusion h
          · simp only [hmc]
            rw [if_neg hsc]
            refine ⟨?_, ?_, ?_, ?_, ?_⟩
            · intro r h
              injection h with h1
              subst h1
              exact ⟨hsc, ng, rfl⟩
            · intro j h
              exact ChatExit.noConfusion h
            · intro txt h
              exact ChatExit.noConfusion h
            · intro m2 h
              exact ChatExit.noConfusion h
            · intro h
              exact ChatExit.noConfusion h
      · rw [if_neg hemp]
        split
        · refine ⟨?_, ?_, ?_, ?_, ?_⟩
          · intro r h
            exact ChatExit.noConfusion h
          · intro j h
            simp [execCalls_pushes]
          · intro txt h
            exact ChatExit.noConfusion h
          · intro m2 h
            exact ChatExit.noConfusion h
          · intro h
            exact ChatExit.noConfusion h
        · refine ⟨?_, ?_, ?_, ?_, ?_⟩
          · intro r h
            obtain ⟨hne, ts, hp⟩ := (ih (iter + 1) _).1 r h
            refine ⟨hne, ts, ?_⟩
            rw [hp]
            simp [execCalls_pushes]
          · intro j h
            rw [(ih (iter + 1) _).2.1 j h]
            simp [execCalls_pushes]
          · intro txt h
            obtain ⟨ts, hp⟩ := (ih (iter + 1) _).2.2.1 txt h
            refine ⟨ts, ?_⟩
            rw [hp]
            simp [execCalls_pushes]
          · intro m2 h
            rw [(ih (iter + 1) _).2.2.2.1 m2 h]
            simp [execCalls_pushes]
          · intro h
            rw [(ih (iter + 1) _).2.2.2.2 h]
            simp [execCalls_pushes]

/-- C10 counterexample: a turn that ends with a plain-text model reply
pushes the final answer to the per-user history twice, not once — once
inside the loop when the reply arrives and once more in the shared
epilogue. -/
theorem c10_counterexample :
    (chat id false exOutText "u" "hi" exState).result = ChatRes.reply "Hello" ∧
    assistContents (chat id false exOutText "u" "hi" exState).pushes = ["Hello", "Hello"] ∧
    ((chat id false exOutText "u" "hi" exState).hist.filter
      (fun p => p.role == "assistant")).length = 2 := by
  decide

/-- Claim C10 (amended): whenever `chat` returns a reply there is a final
answer `fa`, the returned text is the markdown-stripped `fa`, and `fa` is
appended to the per-user history twice when the loop exited with a
plain-text model reply, and exactly once for the budget, fallback and
fell-through exits. -/
theorem c10_final_answer_push (stripMD : String → String) (doPrune : Bool)
    (outcomes : Nat → AttemptOutcome) (uid um : String) (s : SysState) (t : String)
    (h : (chat stripMD doPrune outcomes uid um s).result = ChatRes.reply t) :
    ∃ fa, (chat stripMD doPrune outcomes uid um s).finalAnswer = some fa ∧
      t = stripMD fa ∧
      ((∃ r, (chat stripMD doPrune outcomes uid um s).exit = ChatExit.plainText r) →
        assistContents (chat stripMD doPrune outcomes uid um s).pushes = [fa, fa]) ∧
      ((∀ r, (chat stripMD doPrune outcomes uid um s).exit ≠ ChatExit.plainText r) →
        assistContents (chat stripMD doPrune outcomes uid um s).pushes = [fa]) := by
  have hL := chatLoop_pushes outcomes uid CONFIG_MAX_ITERATIONS 1 (chatInit doPrune uid um s)
  have hbase : (chatInit doPrune uid um s).pushes = [⟨"user", um, s.now⟩] := rfl
  rcases hr : chatLoop outcomes uid CONFIG_MAX_ITERATIONS 1 (chatInit doPrune uid um s)
    with ⟨ex, stf⟩
  cases ex with
  | plainText r0 =>
    simp only [hr] at hL
    obtain ⟨hne, ts, hp⟩ := hL.1 r0 rfl
    have hfr : (if r0 = "" then PROCESSED_DEFAULT else r0) = r0 := if_neg hne
    simp only [chat, hr] at h ⊢
    rw [hfr] at h ⊢
    refine ⟨r0, rfl, ?_, ?_, ?_⟩
    · injection h with h1
      exact h1.symm
    · intro _
      rw [hp, hbase]
      simp [assistContents_cons_user, assistContents_cons_assistant, assistContents_nil]
    · intro hno
      exact absurd rfl (hno r0)
  | budget j =>
    simp only [hr] at hL
    have hp := hL.2.1 j rfl
    simp only [chat, hr] at h ⊢
    refine ⟨if j = "" then PROCESSED_DEFAULT else j, rfl, ?_, ?_, ?_⟩
    · injection h with h1
      exact h1.symm
    · rintro ⟨r, hexx⟩
      exact ChatExit.noConfusion hexx
    · intro _
      rw [hp, hbase]
      simp [assistContents_cons_user, assistContents_cons_assistant, assistContents_nil]
  | fbReturned txt =>
    simp only [hr] at hL
    obtain ⟨ts, hp⟩ := hL.2.2.1 txt rfl
    simp only [chat, hr] at h ⊢
    refine ⟨txt, rfl, ?_, ?_, ?_⟩
    · injection h with h1
      exact h1.symm
    · rintro ⟨r, hexx⟩
      exact ChatExit.noConfusion hexx
    · intro _
      rw [hp, hbase]
      simp [assistContents_cons_user, assistContents_cons_assistant, assistContents_nil]
  | thrownErr msg =>
    simp only [chat, hr] at h
    exact ChatRes.noConfusion h
  | fellThrough =>
    simp only [hr] at hL
    have hp := hL.2.2.2.2 True.intro
    simp only [chat, hr] at h ⊢
    rw [if_pos True.intro] at h ⊢
    refine ⟨PROCESSED_DEFAULT, rfl, ?_, ?_, ?_⟩
    · injection h with h1
      exact h1.symm
    · rintro ⟨r, hexx⟩
      exact ChatExit.noConfusion hexx
    · intro _
      rw [hp, hbase]
      simp [assistContents_cons_user, assistContents_cons_assistant, assistContents_nil]

/-- Witness for the amended C10 at the plain-text scenario. -/
theorem c10_final_answer_push_witness :
    ∃ fa, (chat id false exOutText "u" "hi" exState).finalAnswer = some fa ∧
      "Hello" = id fa ∧
      ((∃ r, (chat id false exOutText "u" "hi" exState).exit = ChatExit.plainText r) →
        assistContents (chat id false exOutText "u" "hi" exState).pushes = [fa, fa]) ∧
      ((∀ r, (chat id false exOutText "u" "hi" exState).exit ≠ ChatExit.plainText r) →
        assistContents (chat id false exOutText "u" "hi" exState).pushes = [fa]) :=
  c10_final_answer_push id false exOutText "u" "hi" exState "Hello" (by decide)

/-! ## Queue-serialization lemmas (C4) -/

/-- A trace over a concatenated event list splits at the boundary. -/
theorem qtrace_split {n : Nat} {s s2 : QSt} (l1 l2 : List QEv) :
    QTrace n s (l1 ++ l2) s2 → ∃ sm, QTrace n s l1 sm ∧ QTrace n sm l2 s2 := by
  induction l1 generalizing s with
  | nil =>
    intro h
    exact ⟨s, QTrace.nil, h⟩
  | cons e l1 ih =>
    intro h
    cases h with
    | cons hstep htr =>
      obtain ⟨sm, h1, h2⟩ := ih htr
      exact ⟨sm, QTrace.cons hstep h1, h2⟩

/-- If a task is running at the end of a trace but was not at the start, the
trace contains its start event. -/
theorem qtrace_started_mem {n : Nat} :
    ∀ {es : List QEv} {s s2 : QSt}, QTrace n s es s2 →
      ∀ k, s.started k = false → s2.started k = true → QEv.start k ∈ es := by
  intro es
  induction es with
  | nil =>
    intro s s2 h k h0 h2
    cases h
    rw [h0] at h2
    exact Bool.noConfusion h2
  | cons e es ih =>
    intro s s2 h k h0 h2
    cases h with
    | cons hstep htr =>
      cases hstep with
      | start k0 hk hprev hns =>
        by_cases hkk : k = k0
        · subst hkk
          exact List.mem_cons_self _ _
        · refine List.mem_cons_of_mem _ (ih htr k ?_ h2)
          show (if k = k0 then true else s.started k) = false
          rw [if_neg hkk]
          exact h0
      | settle k0 hk hs hns =>
        exact List.mem_cons_of_mem _ (ih htr k h0 h2)

/-- If a task has settled at the end of a trace but had not at the start,
the trace contains its settle event. -/
theorem qtrace_settled_mem {n : Nat} :
    ∀ {es : List QEv} {s s2 : QSt}, QTrace n s es s2 →
      ∀ k, s.settled k = false → s2.settled k = true → QEv.settle k ∈ es := by
  intro es
  induction es with
  | nil =>
    intro s s2 h k h0 h2
    cases h
    rw [h0] at h2
    exact Bool.noConfusion h2
  | cons e es ih =>
    intro s s2 h k h0 h2
    cases h with
    | cons hstep htr =>
      cases hstep with
      | start k0 hk hprev hns =>
        exact List.mem_cons_of_mem _ (ih htr k h0 h2)
      | settle k0 hk hs hns =>
        by_cases hkk : k = k0
        · subst hkk
          exact List.mem_cons_self _ _
        · refine List.mem_cons_of_mem _ (ih htr k ?_ h2)
          show (if k = k0 then true else s.settled k) = false
          rw [if_neg hkk]
          exact h0

/-- The invariant that every settled task has started is preserved along
a trace. -/
theorem qtrace_inv {n : Nat} :
    ∀ {es : List QEv} {s s2 : QSt}, QTrace n s es s2 →
      (∀ k, s.settled k = true → s.started k = true) →
      ∀ k, s2.settled k = true → s2.started k = true := by
  intro es
  induction es with
  | nil =>
    intro s s2 h hin
    cases h
    exact hin
  | cons e es ih =>
    intro s s2 h hin
    cases h with
    | cons hstep htr =>
      refine ih htr ?_
      cases hstep with
      | start k0 hk hprev hns =>
        intro k hk2
        show (if k = k0 then true else s.started k) = true
        by_cases hkk : k = k0
        · rw [if_pos hkk]
        · rw [if_neg hkk]
          exact hin k hk2
      | settle k0 hk hs hns =>
        intro k hk2
        by_cases hkk : k = k0
        · subst hkk
          exact hs
        · have hk3 : (if k = k0 then true else s.settled k) = true := hk2
          rw [if_neg hkk] at hk3
          exact hin k hk3

/-- Claim C4: along every run of the per-user promise chain, a task with a
predecessor starts only after that predecessor has both started and settled
(tasks run one at a time in submission order); a settled predecessor enables
the next start regardless of how it settled, so a rejected task does not
block its successors; and the promise handed back to the caller settles with
the failing task's own rejection even though the stored chain swallows it. -/
theorem c4_queue_serialization (n : Nat) (script : Nat → TaskOutcome)
    (es : List QEv) (s : QSt) (htr : QTrace n QSt.init es s) :
    (∀ (l1 l2 : List QEv) (k : Nat), es = l1 ++ QEv.start (k + 1) :: l2 →
      QEv.settle k ∈ l1 ∧ QEv.start k ∈ l1) ∧
    (∀ k, k + 1 < n → s.settled k = true → s.started (k + 1) = false →
      QStep n s (QEv.start (k + 1))
        ⟨fun i => if i = k + 1 then true else s.started i, s.settled⟩) ∧
    (∀ k v, script k = TaskOutcome.err v →
      callerOutcome script k = TaskOutcome.err v ∧
        chainOutcome script k = TaskOutcome.ok "") := by
  refine ⟨?_, ?_, ?_⟩
  · intro l1 l2 k hsplit
    subst hsplit
    obtain ⟨sm, h1, h2⟩ := qtrace_split l1 (QEv.start (k + 1) :: l2) htr
    cases h2 with
    | cons hstep htr2 =>
      cases hstep with
      | start k1 hk hprev hns =>
        rcases hprev with h0 | ⟨k0, hk01, hset⟩
        · exact absurd h0 (Nat.succ_ne_zero k)
        · have hkk : k0 = k := by omega
          subst hkk
          have hstarted : sm.started k0 = true := by
            refine qtrace_inv h1 ?_ k0 hset
            intro k2 hk2
            exact Bool.noConfusion hk2
          exact ⟨qtrace_settled_mem h1 k0 rfl hset,
            qtrace_started_mem h1 k0 rfl hstarted⟩
  · intro k hk1 hset hns
    exact QStep.start (k + 1) hk1 (Or.inr ⟨k, rfl, hset⟩) hns
  · intro k v hv
    constructor
    · exact hv
    · simp only [chainOutcome, hv]

/-- Witness for C4: a concrete serialized run of two tasks in which the
first rejects and the second still runs. -/
theorem c4_queue_serialization_witness :
    (∀ (l1 l2 : List QEv) (k : Nat), qWitEvents = l1 ++ QEv.start (k + 1) :: l2 →
      QEv.settle k ∈ l1 ∧ QEv.start k ∈ l1) ∧
    (∀ k, k + 1 < 2 → qWitFinal.settled k = true → qWitFinal.started (k + 1) = false →
      QStep 2 qWitFinal (QEv.start (k + 1))
        ⟨fun i => if i = k + 1 then true else qWitFinal.started i, qWitFinal.settled⟩) ∧
    (∀ k v, qWitScript k = TaskOutcome.err v →
      callerOutcome qWitScript k = TaskOutcome.err v ∧
        chainOutcome qWitScript k = TaskOutcome.ok "") :=
  c4_queue_serialization 2 qWitScript qWitEvents qWitFinal
    (QTrace.cons (QStep.start 0 (by decide) (Or.inl rfl) rfl)
      (QTrace.cons (QStep.settle 0 (by decide) rfl rfl)
        (QTrace.cons (QStep.start 1 (by decide) (Or.inr ⟨0, rfl, rfl⟩) rfl)
          (QTrace.cons (QStep.settle 1 (by decide) rfl rfl) QTrace.nil))))
